import Mathlib

/-!
# Verification of the sightglass-web event-classification core

Shallow embedding of the install-pattern matcher, event classifier, decision-chain
builder and risk scorer from `packages/cli/src/classifiers/pattern-classifier.ts`,
`packages/cli/src/classifiers/types.ts`, the chain-builder module and
`packages/cli/src/analyzers/risk-scorer.ts`.

Modelling conventions:
* Strings are Lean `String`s; character-level work happens on `String.data`.
* ISO timestamps are modelled as epoch milliseconds (`Int`); the source only ever
  uses timestamps through `new Date(ts).getTime()` differences.
* JavaScript regular expressions are embedded as executable matching functions
  specialised to the concrete patterns of the source (documented at each def).
* `uuid()` (one fresh v4 UUID per built chain) is modelled by an explicit stream
  `uuidAt : Nat → String` read at successive indices; `buildChains` also returns
  the next unread index so that sequential calls can be expressed.
-/

/-- JavaScript `\s` whitespace class (the members relevant to ASCII input). -/
def isWsChar (c : Char) : Bool :=
  c = ' ' || c = '\t' || c = '\n' || c = '\r' || c = '\x0b' || c = '\x0c'

/-- JavaScript regex word character (`\w`, used by `\b`): `[A-Za-z0-9_]`. -/
def isWordChar (c : Char) : Bool :=
  c.isUpper || c.isLower || c.isDigit || c = '_'

/-- `[a-z]`. -/
def isLowerAlpha (c : Char) : Bool :=
  'a' ≤ c && c ≤ 'z'

/-- `[a-z0-9-]`, the tail class of the package-name token regex. -/
def isPkgTailChar (c : Char) : Bool :=
  isLowerAlpha c || c.isDigit || c = '-'

/-- ASCII lowercasing of a string's characters (JS `toLowerCase` on ASCII input). -/
def lowerData (s : String) : List Char :=
  s.data.map Char.toLower

/-- Strip an exact literal prefix, as matching a literal inside a regex. -/
def stripLit : List Char → List Char → Option (List Char)
  | [], s => some s
  | _, [] => none
  | l :: ls, c :: cs => if c = l then stripLit ls cs else none

/-- Match `\s+`: consume one-or-more whitespace characters, greedily.
For the install patterns every `\s+` is followed either by a literal starting
with a non-whitespace character or by the trailing capture `(.+)`, so the greedy
maximal run is the only decomposition that can extend to a full match whose
parsed package list differs from failure (see the notes at `parseInstallCommand`). -/
def stripWs : List Char → Option (List Char)
  | [] => none
  | c :: cs => if isWsChar c then some (cs.dropWhile isWsChar) else none

/-- Match the trailing capture group `(.+)`: greedily take at least one
non-newline character (JS `.` does not match `\n`). -/
def captureRest (s : List Char) : Option (List Char) :=
  let c := s.takeWhile (· ≠ '\n')
  if c = [] then none else some c

/-- Try a position-anchored matcher at every start position, leftmost first —
the search performed by an unanchored JS `String.match`. -/
def scanMatch (f : List Char → Option (List Char)) : List Char → Option (List Char)
  | [] => f []
  | c :: rest =>
    match f (c :: rest) with
    | some r => some r
    | none => scanMatch f rest

/-- `npm\s+install\s+(?:--save(?:-dev)?\s+)?(.+)` at one position.
The optional group is greedy: first with `-dev`, then without, then skipped. -/
def npmInstallAt (s : List Char) : Option (List Char) :=
  (stripLit "npm".data s).bind fun s1 =>
  (stripWs s1).bind fun s2 =>
  (stripLit "install".data s2).bind fun s3 =>
  (stripWs s3).bind fun s4 =>
    match (stripLit "--save".data s4).bind (fun s5 =>
      match (stripLit "-dev".data s5).bind (fun s6 => (stripWs s6).bind captureRest) with
      | some cap => some cap
      | none => (stripWs s5).bind captureRest) with
    | some cap => some cap
    | none => captureRest s4

/-- `npm\s+i\s+(?:--save(?:-dev)?\s+)?(.+)` at one position. -/
def npmIAt (s : List Char) : Option (List Char) :=
  (stripLit "npm".data s).bind fun s1 =>
  (stripWs s1).bind fun s2 =>
  (stripLit "i".data s2).bind fun s3 =>
  (stripWs s3).bind fun s4 =>
    match (stripLit "--save".data s4).bind (fun s5 =>
      match (stripLit "-dev".data s5).bind (fun s6 => (stripWs s6).bind captureRest) with
      | some cap => some cap
      | none => (stripWs s5).bind captureRest) with
    | some cap => some cap
    | none => captureRest s4

/-- A two-word pattern `w1\s+w2\s+(.+)` at one position (`yarn add`, `pnpm add`,
`bun add`, `poetry add`, `pipx install`, `cargo add`, `cargo install`, `go get`,
`go install`, `gem install`, `bundle add`). -/
def twoWordAt (w1 w2 : String) (s : List Char) : Option (List Char) :=
  (stripLit w1.data s).bind fun s1 =>
  (stripWs s1).bind fun s2 =>
  (stripLit w2.data s2).bind fun s3 =>
  (stripWs s3).bind captureRest

/-- `pip3?\s+install\s+(?:--break-system-packages\s+)?(.+)` at one position. -/
def pipInstallAt (s : List Char) : Option (List Char) :=
  (stripLit "pip".data s).bind fun s1 =>
    let after3 :=
      match stripLit "3".data s1 with
      | some s2 =>
        match stripWs s2 with
        | some s3 => some s3
        | none => stripWs s1
      | none => stripWs s1
    after3.bind fun s4 =>
    (stripLit "install".data s4).bind fun s5 =>
    (stripWs s5).bind fun s6 =>
      match (stripLit "--break-system-packages".data s6).bind
          (fun s7 => (stripWs s7).bind captureRest) with
      | some cap => some cap
      | none => captureRest s6

/-- `uv\s+pip\s+install\s+(.+)` at one position. -/
def uvPipInstallAt (s : List Char) : Option (List Char) :=
  (stripLit "uv".data s).bind fun s1 =>
  (stripWs s1).bind fun s2 =>
  (stripLit "pip".data s2).bind fun s3 =>
  (stripWs s3).bind fun s4 =>
  (stripLit "install".data s4).bind fun s5 =>
  (stripWs s5).bind captureRest

/-- Package managers recognised by the pattern tables (`PackageManager` enum). -/
inductive PackageManager where
  | npm | pip | cargo | go | gem
  deriving DecidableEq, Repr

/-- A `{name, version?, manager}` triple produced by the pattern matcher
(`ParsedPackage`). -/
structure ParsedPackage where
  name : String
  version : Option String := none
  manager : PackageManager
  deriving DecidableEq, Repr

/-- `INSTALL_PATTERNS`: the ordered per-manager pattern table, each entry as a
position-anchored matcher returning the capture of its final `(.+)` group. -/
def INSTALL_PATTERNS : List (PackageManager × List (List Char → Option (List Char))) :=
  [ (.npm, [npmInstallAt, npmIAt, twoWordAt "yarn" "add", twoWordAt "pnpm" "add",
            twoWordAt "bun" "add"]),
    (.pip, [pipInstallAt, uvPipInstallAt, twoWordAt "poetry" "add",
            twoWordAt "pipx" "install"]),
    (.cargo, [twoWordAt "cargo" "add", twoWordAt "cargo" "install"]),
    (.go, [twoWordAt "go" "get", twoWordAt "go" "install"]),
    (.gem, [twoWordAt "gem" "install", twoWordAt "bundle" "add"]) ]

/-- JS `String.prototype.trim`. -/
def trimChars (s : List Char) : List Char :=
  ((s.dropWhile isWsChar).reverse.dropWhile isWsChar).reverse

/-- JS `str.split(/\s+/)`: split at maximal whitespace runs.  Interior parts are
non-empty; an empty part appears at the front/back exactly when the string
starts/ends with whitespace, and `"".split` gives `[""]`. -/
def splitWsTokens : List Char → List (List Char)
  | [] => [[]]
  | c :: rest =>
    if isWsChar c then
      match rest with
      | [] => [[], []]
      | d :: _ =>
        if isWsChar d then splitWsTokens rest else [] :: splitWsTokens rest
    else
      match splitWsTokens rest with
      | t :: ts => (c :: t) :: ts
      | [] => [[c]]

/-- `parsePackageSpec` for `manager === 'npm'`.
Scoped regex `^(@[^@]+)@(.+)$` then plain regex `^([^@]+)@(.+)$`: both split the
spec at its first non-leading `@`; the version part must be non-empty and (since
`.` does not match `\n` and `$` anchors at the end) newline-free, otherwise the
spec is returned whole as the name. -/
def parseNpmSpec (spec : List Char) : List Char × Option (List Char) :=
  match spec with
  | '@' :: rest =>
    let a := rest.takeWhile (· ≠ '@')
    match rest.dropWhile (· ≠ '@') with
    | '@' :: b =>
      if a ≠ [] ∧ b ≠ [] ∧ '\n' ∉ b then ('@' :: a, some b) else (spec, none)
    | _ => (spec, none)
  | _ =>
    let a := spec.takeWhile (· ≠ '@')
    match spec.dropWhile (· ≠ '@') with
    | '@' :: b =>
      if a ≠ [] ∧ b ≠ [] ∧ '\n' ∉ b then (a, some b) else (spec, none)
    | _ => (spec, none)

/-- `[=<>!]`, the pip version-separator class. -/
def isPipSep (c : Char) : Bool :=
  c = '=' || c = '<' || c = '>' || c = '!'

/-- `parsePackageSpec` for `manager === 'pip'`: regex
`^([^=<>!]+)(?:[=<>!]+(.+))?$`, splitting at the first separator run. -/
def parsePipSpec (spec : List Char) : List Char × Option (List Char) :=
  let a := spec.takeWhile (fun c => ¬ isPipSep c)
  let r := spec.dropWhile (fun c => ¬ isPipSep c)
  if a = [] then (spec, none)
  else if r = [] then (spec, none)
  else
    let b := r.dropWhile isPipSep
    if b ≠ [] ∧ '\n' ∉ b then (a, some b) else (spec, none)

/-- `parsePackageSpec`: parse one package specifier under manager-specific rules
(other managers keep the spec whole). -/
def parsePackageSpec (spec : String) (manager : PackageManager) :
    String × Option String :=
  match manager with
  | .npm =>
    let (n, v) := parseNpmSpec spec.data
    (String.mk n, v.map String.mk)
  | .pip =>
    let (n, v) := parsePipSpec spec.data
    (String.mk n, v.map String.mk)
  | _ => (spec, none)

/-- `splitPackageArgs`: tokenize the captured argument string on whitespace,
drop flag tokens (leading `-`), parse each token, and drop empty names. -/
def splitPackageArgs (args : List Char) (manager : PackageManager) :
    List ParsedPackage :=
  let parts := (splitWsTokens args).filter (fun p => p.head? ≠ some '-')
  (parts.map (fun part =>
    let (n, v) := parsePackageSpec (String.mk part) manager
    ({ name := n, version := v, manager } : ParsedPackage))).filter
    (fun p => p.name.length > 0)

/-- `parseInstallCommand`: run every pattern of every manager against the
command (table order) and concatenate the parsed packages of each match.
JS `command.match(p)` takes the leftmost match; its capture is trimmed before
tokenising.  (The embedded `\s+` matchers do not backtrack into the trailing
capture; the only JS matches this misses capture a whitespace-only string,
which tokenises to no packages — exactly what a failed match contributes.) -/
def parseInstallCommand (command : String) : List ParsedPackage :=
  INSTALL_PATTERNS.flatMap fun mp =>
    mp.2.flatMap fun pat =>
      match scanMatch pat command.data with
      | some cap => splitPackageArgs (trimChars cap) mp.1
      | none => []

example : parseInstallCommand "npm install express" =
    [{ name := "express", manager := .npm }] := by decide
example : parseInstallCommand "npm install express@4.21.0" =
    [{ name := "express", version := some "4.21.0", manager := .npm }] := by decide
example : parseInstallCommand "npm install cors helmet dotenv" =
    [{ name := "cors", manager := .npm }, { name := "helmet", manager := .npm },
     { name := "dotenv", manager := .npm }] := by decide
example : parseInstallCommand "npm install --save-dev typescript" =
    [{ name := "typescript", manager := .npm }] := by decide
example : parseInstallCommand "npm i express" =
    [{ name := "express", manager := .npm }] := by decide
example : parseInstallCommand "npm install @types/express" =
    [{ name := "@types/express", manager := .npm }] := by decide
example : parseInstallCommand "yarn add react" =
    [{ name := "react", manager := .npm }] := by decide
example : parseInstallCommand "pip install flask" =
    [{ name := "flask", manager := .pip }] := by decide
example : parseInstallCommand "cargo add serde" =
    [{ name := "serde", manager := .cargo }] := by decide
example : parseInstallCommand "npm install -D ts-node typescript" =
    [{ name := "ts-node", manager := .npm }, { name := "typescript", manager := .npm }] := by
  decide
example : parseInstallCommand "git status" = [] := by decide
example : parseInstallCommand "pip install flask==2.0" =
    [{ name := "flask", version := some "2.0", manager := .pip }] := by decide

/-- The discovery-type classification enum (`DiscoveryType`). -/
inductive DiscoveryType where
  | TRAINING_RECALL | CONTEXT_INHERITANCE | REACTIVE_SEARCH
  | PROACTIVE_SEARCH | USER_DIRECTED | UNKNOWN
  deriving DecidableEq, Repr

/-- The event action enum (`ActionType`). -/
inductive ActionType where
  | bash | web_search | web_fetch | file_read | file_write
  deriving DecidableEq, Repr

/-- One observed agent action (`RawEvent`); `timestamp` is epoch milliseconds. -/
structure RawEvent where
  id : String
  sessionId : String
  timestamp : Int
  agent : String := ""
  action : ActionType
  raw : String
  result : Option String := none
  exitCode : Option Int := none
  cwd : Option String := none
  deriving DecidableEq, Repr

/-- A `RawEvent` annotated with classification (`ClassifiedEvent`, which
`extends RawEvent` in the source). -/
structure ClassifiedEvent extends RawEvent where
  classification : DiscoveryType
  confidence : Nat
  packageName : Option String := none
  packageVersion : Option String := none
  packageManager : Option PackageManager := none
  isInstall : Bool
  isSearch : Bool
  abandoned : Bool
  alternatives : List String
  deriving DecidableEq, Repr

/-- `HIGH_TRAINING_WEIGHT_PACKAGES`: per-manager high-training-weight lists. -/
def HIGH_TRAINING_WEIGHT_PACKAGES (m : PackageManager) : List String :=
  match m with
  | .npm =>
    ["express", "react", "next", "axios", "lodash", "moment",
     "jsonwebtoken", "bcrypt", "mongoose", "cors", "dotenv",
     "body-parser", "nodemon", "jest", "typescript", "webpack",
     "puppeteer", "cheerio", "socket.io", "multer", "passport",
     "sequelize", "pg", "redis", "uuid", "chalk",
     "helmet", "morgan", "express-rate-limit", "express-validator"]
  | .pip =>
    ["flask", "django", "requests", "pandas", "numpy",
     "beautifulsoup4", "sqlalchemy", "click", "pytest",
     "fastapi", "celery", "redis", "pillow", "scipy",
     "matplotlib", "scikit-learn", "boto3", "pydantic"]
  | .cargo =>
    ["serde", "tokio", "clap", "reqwest", "anyhow",
     "thiserror", "tracing", "axum", "sqlx"]
  | .go =>
    ["gin-gonic/gin", "gorilla/mux", "gorm.io/gorm",
     "go-chi/chi", "cobra", "viper"]
  | .gem =>
    ["rails", "sinatra", "puma", "sidekiq", "rspec",
     "devise", "pg", "redis"]

/-- `AGENT_CONFIG_FILES`. -/
def AGENT_CONFIG_FILES : List String :=
  ["CLAUDE.md", ".cursorrules", ".cursorignore", ".windsurfrules",
   ".github/copilot-instructions.md"]

/-- The dependency-manifest file list inlined in `isPackageFileRead`. -/
def PACKAGE_FILES : List String :=
  ["package.json", "requirements.txt", "Pipfile", "pyproject.toml",
   "Cargo.toml", "go.mod", "Gemfile"]

/-- List-level `endsWith`. -/
def listEndsWith (suffix s : List Char) : Bool :=
  decide (suffix.reverse <+: s.reverse)

/-- `a.endsWith b` for strings. -/
def strEndsWith (s suffix : String) : Bool :=
  listEndsWith suffix.data s.data

/-- The non-empty suffixes of a list plus the empty one: the start positions an
unanchored regex search tries, leftmost first. -/
def suffixesOf : List Char → List (List Char)
  | [] => [[]]
  | c :: rest => (c :: rest) :: suffixesOf rest

/-- Does some split `s = a ++ b` satisfy `p a b`?  Used to embed regex
backtracking as existence of a decomposition. -/
def anySplit (s : List Char) (p : List Char → List Char → Bool) : Bool :=
  (List.range (s.length + 1)).any fun i => p (s.take i) (s.drop i)

/-- A non-empty all-whitespace list: what `\s+` can consume. -/
def isWsRun (l : List Char) : Bool :=
  l ≠ [] && l.all isWsChar

/-- A non-empty newline-free list: what `.+` can consume. -/
def isDotRun (l : List Char) : Bool :=
  l ≠ [] && l.all (· ≠ '\n')

/-- List-level `startsWith`. -/
def listStartsWith (p s : List Char) : Bool :=
  decide (p <+: s)

/-- `SEARCH_PATTERNS[0]`: `/best\s+.+\s+(?:library|package|module|tool)/i`
(on an already-lowercased string). -/
def searchPat1 (s : List Char) : Bool :=
  (suffixesOf s).any fun t =>
    listStartsWith "best".data t &&
    anySplit (t.drop 4) fun w1 u =>
      isWsRun w1 &&
      anySplit u fun m v =>
        isDotRun m &&
        anySplit v fun w2 x =>
          isWsRun w2 &&
          (listStartsWith "library".data x || listStartsWith "package".data x ||
           listStartsWith "module".data x || listStartsWith "tool".data x)

/-- `SEARCH_PATTERNS[1]`: `/(?:alternative|replacement)\s+(?:to|for)\s+/i`. -/
def searchPat2 (s : List Char) : Bool :=
  (suffixesOf s).any fun t =>
    (listStartsWith "alternative".data t || listStartsWith "replacement".data t) &&
    anySplit (t.drop 11) fun w1 u =>
      isWsRun w1 &&
      ((listStartsWith "to".data u && (u.drop 2).head?.any isWsChar) ||
       (listStartsWith "for".data u && (u.drop 3).head?.any isWsChar))

/-- `SEARCH_PATTERNS[2]`: `/\bvs\b/i`.  Walks the string keeping the previous
character for the left word boundary. -/
def hasVsWord : Option Char → List Char → Bool
  | _, [] => false
  | prev, c :: rest =>
    (c = 'v' && rest.head? = some 's' &&
     ¬ prev.any isWordChar && ¬ ((rest.drop 1).head?.any isWordChar)) ||
    hasVsWord (some c) rest

/-- `SEARCH_PATTERNS[3]`: `/compare\s+/i`. -/
def searchPat4 (s : List Char) : Bool :=
  (suffixesOf s).any fun t =>
    listStartsWith "compare".data t && (t.drop 7).head?.any isWsChar

/-- `SEARCH_PATTERNS[4]`: `/lightweight\s+/i`. -/
def searchPat5 (s : List Char) : Bool :=
  (suffixesOf s).any fun t =>
    listStartsWith "lightweight".data t && (t.drop 11).head?.any isWsChar

/-- `isProactiveSearchQuery`: `SEARCH_PATTERNS.some(p => p.test(query))`.
All five patterns carry the `i` flag, so the query is lowercased once. -/
def isProactiveSearchQuery (query : String) : Bool :=
  let s := lowerData query
  searchPat1 s || searchPat2 s || hasVsWord none s || searchPat4 s || searchPat5 s

example : isProactiveSearchQuery "best pdf library" = true := by decide
example : isProactiveSearchQuery "alternative to puppeteer" = true := by decide
example : isProactiveSearchQuery "alternatives to puppeteer" = false := by decide
example : isProactiveSearchQuery "express VS fastify" = true := by decide
example : isProactiveSearchQuery "lightweight pdf nodejs" = true := by decide
example : isProactiveSearchQuery "how to parse json" = false := by decide

/-- The word-boundary test after a candidate package-name match: `\b` holds
between the last matched character and the rest of the input. -/
def endBoundary (lastChar : Char) (rest : List Char) : Bool :=
  isWordChar lastChar ≠ rest.head?.any isWordChar

/-- After the leading `[a-z]` of `/\b([a-z][a-z0-9-]*(?:\/[a-z][a-z0-9-]*)?)\b/g`,
try the star/optional-group continuations in the regex engine's backtracking
order (longest star first; group present before absent) and return the matched
characters after the first one together with the remaining input. -/
def pkgTokenTail (first : Char) (rest : List Char) : Option (List Char × List Char) :=
  let run := rest.takeWhile isPkgTailChar
  let after := rest.drop run.length
  (List.range (run.length + 1)).firstM fun back =>
    let kept := run.take (run.length - back)
    let s1 := run.drop (run.length - back) ++ after
    let lastNoSlash := (kept.getLast? ).getD first
    let withSlash :=
      match s1 with
      | '/' :: d :: s2 =>
        if isLowerAlpha d then
          let run2 := s2.takeWhile isPkgTailChar
          let after2 := s2.drop run2.length
          (List.range (run2.length + 1)).firstM fun back2 =>
            let kept2 := run2.take (run2.length - back2)
            let s3 := run2.drop (run2.length - back2) ++ after2
            let last2 := (kept2.getLast?).getD d
            if endBoundary last2 s3 then
              some (kept ++ '/' :: d :: kept2, s3)
            else none
        else none
      | _ => none
    match withSlash with
    | some r => some r
    | none => if endBoundary lastNoSlash s1 then some (kept, s1) else none

/-- Global scan of `/\b([a-z][a-z0-9-]*(?:\/[a-z][a-z0-9-]*)?)\b/g` over a
string, leftmost matches first, resuming after each match (`String.match` with
the `g` flag).  `fuel` bounds the recursion by the remaining length. -/
def pkgTokenScan : Nat → Option Char → List Char → List (List Char)
  | 0, _, _ => []
  | _ + 1, _, [] => []
  | fuel + 1, prev, c :: rest =>
    if isLowerAlpha c && ¬ prev.any isWordChar then
      match pkgTokenTail c rest with
      | some (tail, rem) =>
        (c :: tail) :: pkgTokenScan fuel (some ((tail.getLast?).getD c)) rem
      | none => pkgTokenScan fuel (some c) rest
    else pkgTokenScan fuel (some c) rest

/-- The stop-word set of `extractAlternativesFromSearch`. -/
def STOP_WORDS : List String :=
  ["the", "and", "for", "with", "this", "that", "from", "results", "stars",
   "last", "commit"]

/-- Deduplicate keeping first occurrences: `[...new Set(xs)]`. -/
def dedupKeepFirst : List String → List String
  | [] => []
  | x :: xs => x :: (dedupKeepFirst xs).filter (· ≠ x)

/-- `extractAlternativesFromSearch`: package-like tokens of the result text,
filtered to length ≥ 3 and non-stop-words, deduplicated, first 10. -/
def extractAlternativesFromSearch (event : RawEvent) : List String :=
  match event.result with
  | none => []
  | some res =>
    let found := pkgTokenScan (res.data.length + 1) none res.data
    let kept := found.filter fun m => m.length ≥ 3 && ¬ STOP_WORDS.contains (String.mk m)
    (dedupKeepFirst (kept.map String.mk)).take 10

example :
    extractAlternativesFromSearch
      { id := "x", sessionId := "s", timestamp := 0, action := .web_search,
        raw := "q", result := some "Results: pdfkit, pdf-lib, jspdf, puppeteer-core..." } =
    ["pdfkit", "pdf-lib", "jspdf", "puppeteer-core"] := by decide
example :
    extractAlternativesFromSearch
      { id := "x", sessionId := "s", timestamp := 0, action := .web_fetch,
        raw := "u", result := some "Stars: 9.8k, Last commit: 2 weeks ago..." } =
    ["weeks", "ago"] := by decide

/-- `isInstallEvent`: a bash event whose command parses to at least one package. -/
def isInstallEvent (event : RawEvent) : Bool :=
  event.action = .bash && (parseInstallCommand event.raw).length > 0

/-- `isSearchEvent`. -/
def isSearchEvent (event : RawEvent) : Bool :=
  event.action = .web_search || event.action = .web_fetch

/-- `isFileReadEvent`. -/
def isFileReadEvent (event : RawEvent) : Bool :=
  event.action = .file_read

/-- `isConfigFileRead`. -/
def isConfigFileRead (event : RawEvent) : Bool :=
  isFileReadEvent event && AGENT_CONFIG_FILES.any (fun f => strEndsWith event.raw f)

/-- `isPackageFileRead`. -/
def isPackageFileRead (event : RawEvent) : Bool :=
  isFileReadEvent event && PACKAGE_FILES.any (fun f => strEndsWith event.raw f)

/-- `isFailedBash`: bash with a defined, non-zero exit code. -/
def isFailedBash (event : RawEvent) : Bool :=
  event.action = .bash &&
    match event.exitCode with
    | some c => c ≠ 0
    | none => false

/-- `isHighTrainingWeight`. -/
def isHighTrainingWeight (packageName : String) (manager : PackageManager) : Bool :=
  (HIGH_TRAINING_WEIGHT_PACKAGES manager).contains packageName

/-- `packageMentionedIn`: case-insensitive substring containment. -/
def packageMentionedIn (packageName : String) (content : String) : Bool :=
  decide ((lowerData packageName) <:+: (lowerData content))

example : packageMentionedIn "pg" "Use PostgreSQL" = false := by decide
example : packageMentionedIn "zod" "deps: Zod and others" = true := by decide

/-- The classifier's rolling scan state. -/
structure ScanState where
  configFileContents : List String := []
  packageFileContents : List String := []
  recentFailures : List RawEvent := []
  recentSearches : List RawEvent := []
  lastFailure : Option RawEvent := none
  deriving Repr

/-- The look-back window of `classifySingleInstall`: the (up to) 10 events
before position `i` of the full list — `events.slice(Math.max(0, i - 10), i)`. -/
def windowAt (allEvents : List RawEvent) (i : Nat) : List RawEvent :=
  (allEvents.take i).drop (i - 10)

/-- The result record of `classifySingleInstall`. -/
structure InstallClassification where
  type : DiscoveryType
  confidence : Nat
  abandoned : Bool
  alternatives : List String
  deriving DecidableEq, Repr

/-- `classifySingleInstall`: the ordered decision procedure over the look-back
window and accumulated file contents.  (The source also receives the raw event,
`lastFailure` and `recentSearches`, none of which its body reads, and computes
an unused `hasRecentConfigRead`; they are omitted here.) -/
def classifySingleInstall (pkg : ParsedPackage) (eventIndex : Nat)
    (allEvents : List RawEvent) (configContents packageContents : List String) :
    InstallClassification :=
  let window := windowAt allEvents eventIndex
  let hasRecentSearch := window.any isSearchEvent
  let hasRecentFailure := window.any isFailedBash
  let hasRecentPackageRead := window.any isPackageFileRead
  let searchInWindow := window.filter isSearchEvent
  let alternatives := searchInWindow.flatMap extractAlternativesFromSearch
  if configContents.any (packageMentionedIn pkg.name) then
    ⟨.USER_DIRECTED, 90, false, alternatives⟩
  else if hasRecentPackageRead && packageContents.any (packageMentionedIn pkg.name) then
    ⟨.CONTEXT_INHERITANCE, 85, false, alternatives⟩
  else if hasRecentFailure && hasRecentSearch then
    ⟨.REACTIVE_SEARCH, 80, false, alternatives⟩
  else if hasRecentSearch && !hasRecentFailure then
    if searchInWindow.any (fun e => isProactiveSearchQuery e.raw) then
      ⟨.PROACTIVE_SEARCH, 75, false, alternatives⟩
    else
      ⟨.REACTIVE_SEARCH, 65, false, alternatives⟩
  else if isHighTrainingWeight pkg.name pkg.manager then
    ⟨.TRAINING_RECALL, 90, false, []⟩
  else
    ⟨.TRAINING_RECALL, 70, false, []⟩

/-- `classifySearchEvent`: reactive within 60 s of the last failure, else
proactive by query shape, else unknown. -/
def classifySearchEvent (event : RawEvent) (lastFailure : Option RawEvent) :
    DiscoveryType × Nat :=
  match lastFailure with
  | some lf =>
    if event.timestamp - lf.timestamp < 60000 then (.REACTIVE_SEARCH, 80)
    else if isProactiveSearchQuery event.raw then (.PROACTIVE_SEARCH, 75)
    else (.UNKNOWN, 40)
  | none =>
    if isProactiveSearchQuery event.raw then (.PROACTIVE_SEARCH, 75)
    else (.UNKNOWN, 40)

/-- `createClassifiedEvent`: the spread constructor used for install events. -/
def createClassifiedEvent (event : RawEvent) (classification : DiscoveryType)
    (confidence : Nat) (packages : List ParsedPackage) (abandoned : Bool := false)
    (alternatives : List String := []) : ClassifiedEvent :=
  { toRawEvent := event
    classification := classification
    confidence := confidence
    packageName := packages.head?.map (·.name)
    packageVersion := packages.head?.bind (·.version)
    packageManager := packages.head?.map (·.manager)
    isInstall := true
    isSearch := false
    abandoned := abandoned
    alternatives := alternatives }

/-- The state-tracking prefix of one loop iteration of `classifyEvents`
(config/package file-content accumulation, failure and search tracking).
A tracked file read contributes only when its `result` is JS-truthy, i.e.
present and non-empty. -/
def trackEvent (st : ScanState) (event : RawEvent) : ScanState :=
  let st :=
    match isConfigFileRead event, event.result with
    | true, some r =>
      if r ≠ "" then { st with configFileContents := st.configFileContents ++ [r] }
      else st
    | _, _ => st
  let st :=
    match isPackageFileRead event, event.result with
    | true, some r =>
      if r ≠ "" then { st with packageFileContents := st.packageFileContents ++ [r] }
      else st
    | _, _ => st
  let st :=
    if isFailedBash event then
      { st with lastFailure := some event, recentFailures := st.recentFailures ++ [event] }
    else st
  if isSearchEvent event then
    { st with recentSearches := st.recentSearches ++ [event] }
  else st

/-- The classification suffix of one loop iteration of `classifyEvents`:
produce the `ClassifiedEvent` for the event at position `i`, given the state
after tracking. -/
def classifyOne (allEvents : List RawEvent) (i : Nat) (event : RawEvent)
    (st : ScanState) : ClassifiedEvent :=
  if isInstallEvent event then
    let packages := parseInstallCommand event.raw
    match packages.head? with
    | none => createClassifiedEvent event .UNKNOWN 30 packages
    | some primaryPkg =>
      let c := classifySingleInstall primaryPkg i allEvents
        st.configFileContents st.packageFileContents
      createClassifiedEvent event c.type c.confidence packages c.abandoned c.alternatives
  else if isSearchEvent event then
    let sc := classifySearchEvent event st.lastFailure
    { toRawEvent := event
      classification := sc.1
      confidence := sc.2
      isInstall := false
      isSearch := true
      abandoned := false
      alternatives := extractAlternativesFromSearch event }
  else if isFileReadEvent event then
    { toRawEvent := event
      classification := if isConfigFileRead event then .USER_DIRECTED else .UNKNOWN
      confidence := if isConfigFileRead event then 60 else 20
      isInstall := false
      isSearch := false
      abandoned := false
      alternatives := [] }
  else
    { toRawEvent := event
      classification := .UNKNOWN
      confidence := 10
      isInstall := false
      isSearch := false
      abandoned := isFailedBash event
      alternatives := [] }

/-- The forward pass of `classifyEvents` from position `i` with state `st`. -/
def classifyPass (allEvents : List RawEvent) : Nat → List RawEvent → ScanState →
    List ClassifiedEvent
  | _, [], _ => []
  | i, event :: rest, st =>
    let st' := trackEvent st event
    classifyOne allEvents i event st' :: classifyPass allEvents (i + 1) rest st'

/-- Does this classified event carry a defined non-zero exit code? -/
def hasNonzeroExit (e : ClassifiedEvent) : Bool :=
  match e.exitCode with
  | some c => c ≠ 0
  | none => false

/-- One pass of `markAbandonedInstalls` with `n` total installs, the current
event carrying install position `k`.  The source iterates
`for (i = 0; i < installEvents.length - 1; i++)`, so only installs at positions
`k` with `k + 1 < n` — every install but the chronologically last — are
eligible; already-abandoned installs are skipped (a no-op, kept for fidelity). -/
def markGo (n : Nat) : Nat → List ClassifiedEvent → List ClassifiedEvent
  | _, [] => []
  | k, e :: rest =>
    if e.isInstall then
      let e' :=
        if e.abandoned then e
        else if k + 1 < n ∧ hasNonzeroExit e then { e with abandoned := true }
        else e
      e' :: markGo n (k + 1) rest
    else e :: markGo n k rest

/-- `markAbandonedInstalls` (returning the updated list rather than mutating). -/
def markAbandonedInstalls (events : List ClassifiedEvent) : List ClassifiedEvent :=
  markGo ((events.filter (·.isInstall)).length) 0 events

/-- `classifyEvents`: the forward classification pass followed by the
abandonment-marking pass. -/
def classifyEvents (events : List RawEvent) : List ClassifiedEvent :=
  markAbandonedInstalls (classifyPass events 0 events {})

/-- One reconstructed decision episode (`DecisionChain`). -/
structure DecisionChain where
  id : String
  sessionId : String
  rootEvent : ClassifiedEvent
  subDecisions : List ClassifiedEvent
  searchEvents : List ClassifiedEvent
  abandonedChoices : List ClassifiedEvent
  finalSelection : ClassifiedEvent
  chainOrder : Nat
  deriving DecidableEq, Repr

/-- The accumulator threaded through `buildChainForInstall`'s two scan loops:
the three collected lists plus the `used` id set (modelled as a list). -/
structure CollectSt where
  searches : List ClassifiedEvent := []
  abandonedCs : List ClassifiedEvent := []
  subs : List ClassifiedEvent := []
  used : List String
  deriving Repr

/-- One iteration of the backward scan: skip used events, collect searches into
`searchEvents` and abandoned installs into `abandonedChoices`, marking used. -/
def backStep (st : CollectSt) (e : ClassifiedEvent) : CollectSt :=
  if e.id ∈ st.used then st
  else if e.isSearch then
    { st with searches := st.searches ++ [e], used := e.id :: st.used }
  else if e.isInstall && e.abandoned then
    { st with abandonedCs := st.abandonedCs ++ [e], used := e.id :: st.used }
  else st

/-- One iteration of the forward scan: skip used events, collect searches, and
collect installs into `subDecisions` when the root is abandoned or the install
follows the root by less than 30 s. -/
def fwdStep (root : ClassifiedEvent) (st : CollectSt) (e : ClassifiedEvent) :
    CollectSt :=
  if e.id ∈ st.used then st
  else if e.isSearch then
    { st with searches := st.searches ++ [e], used := e.id :: st.used }
  else if e.isInstall &&
      (root.abandoned || decide (e.timestamp - root.timestamp < 30000)) then
    { st with subs := st.subs ++ [e], used := e.id :: st.used }
  else st

/-- The indices visited by the backward scan, in loop order:
`for (i = rootIndex - 1; i >= Math.max(0, rootIndex - 10); i--)`. -/
def backIdxs (r : Nat) : List Nat :=
  (List.range (min 10 r)).map (fun k => r - 1 - k)

/-- The indices visited by the forward scan, in loop order:
`for (i = rootIndex + 1; i < Math.min(len, rootIndex + 10); i++)` —
note the strict `<`, which visits at most 9 indices. -/
def fwdIdxs (r len : Nat) : List Nat :=
  (List.range (min len (r + 10) - (r + 1))).map (fun k => r + 1 + k)

/-- The events of `es` at the given (in-range) indices, in index-list order. -/
def evtsAt (es : List ClassifiedEvent) (idxs : List Nat) : List ClassifiedEvent :=
  idxs.filterMap (fun i => es[i]?)

/-- The session filter at the top of `buildChainForInstall`. -/
def sessionEventsOf (allEvents : List ClassifiedEvent) (sessionId : String) :
    List ClassifiedEvent :=
  allEvents.filter (fun e => e.sessionId = sessionId)

/-- `buildChainForInstall`: mark the root used, scan backward then forward over
the root's session events, and pick the final selection.  `uuidValue` is the
fresh UUID the source draws for the chain id; the updated used set is returned
(the source mutates a shared `Set`).  `findIdx` returns the list length when
the root id is absent, a case `buildChains` never produces. -/
def buildChainForInstall (uuidValue : String) (rootInstall : ClassifiedEvent)
    (allEvents : List ClassifiedEvent) (used : List String) :
    DecisionChain × List String :=
  let used1 := rootInstall.id :: used
  let ses := sessionEventsOf allEvents rootInstall.sessionId
  let rootIndex := ses.findIdx (fun e => e.id = rootInstall.id)
  let st1 := (evtsAt ses (backIdxs rootIndex)).foldl backStep { used := used1 }
  let st2 := (evtsAt ses (fwdIdxs rootIndex ses.length)).foldl (fwdStep rootInstall) st1
  let finalSelection :=
    if rootInstall.abandoned then
      (st2.subs.find? (fun e => !e.abandoned)).getD rootInstall
    else rootInstall
  ({ id := uuidValue
     sessionId := rootInstall.sessionId
     rootEvent := rootInstall
     subDecisions := st2.subs
     searchEvents := st2.searches
     abandonedChoices := st2.abandonedCs
     finalSelection := finalSelection
     chainOrder := 0 }, st2.used)

/-- The loop of `buildChains` over the install events: skip used roots, build a
chain per unused root, assign 1-based `chainOrder`, thread the used set.  The
`order` counter also indexes the uuid stream (one `uuid()` call per chain). -/
def buildChainsGo (uuidAt : Nat → String) (uuidStart : Nat)
    (allEvents : List ClassifiedEvent) :
    List ClassifiedEvent → List String → Nat → List DecisionChain
  | [], _, _ => []
  | ie :: rest, used, order =>
    if ie.id ∈ used then buildChainsGo uuidAt uuidStart allEvents rest used order
    else
      let cu := buildChainForInstall (uuidAt (uuidStart + order)) ie allEvents used
      { cu.1 with chainOrder := order + 1 } ::
        buildChainsGo uuidAt uuidStart allEvents rest cu.2 (order + 1)

/-- `buildChains`: one chain per not-yet-used install event, in order.  Returns
the chains and the next unread uuid-stream index (the source's `uuid()` draws
a fresh random value per call; sequential calls read successive indices). -/
def buildChains (uuidAt : Nat → String) (uuidStart : Nat)
    (events : List ClassifiedEvent) : List DecisionChain × Nat :=
  let chains := buildChainsGo uuidAt uuidStart events (events.filter (·.isInstall)) [] 0
  (chains, uuidStart + chains.length)

/-- Risk factor types (`RiskFactorType`). -/
inductive RiskFactorType where
  | vulnerability | deprecated | unmaintained | bloat | license | training_bias
  deriving DecidableEq, Repr

/-- Risk severities (`RiskSeverity`). -/
inductive RiskSeverity where
  | info | warning | error | critical
  deriving DecidableEq, Repr

/-- Derived risk levels (`RiskLevel`). -/
inductive RiskLevel where
  | low | medium | high | critical
  deriving DecidableEq, Repr

/-- One risk finding (`RiskFactor`). -/
structure RiskFactor where
  type : RiskFactorType
  severity : RiskSeverity
  detail : String
  source : Option String := none
  suggestedAlternative : Option String := none
  deriving DecidableEq, Repr

/-- The risk verdict for one package (`RiskAssessment`). -/
structure RiskAssessment where
  packageName : String
  packageVersion : String
  riskLevel : RiskLevel
  factors : List RiskFactor
  deriving DecidableEq, Repr

/-- `KNOWN_ISSUES`: the static package-name → risk-factor table. -/
def KNOWN_ISSUES (packageName : String) : Option RiskFactor :=
  if packageName = "moment" then
    some { type := .deprecated, severity := .warning
           detail := "Moment.js is in maintenance mode. Agents still recommend it due to high training weight."
           suggestedAlternative := some "date-fns or dayjs" }
  else if packageName = "request" then
    some { type := .deprecated, severity := .warning
           detail := "Request is fully deprecated since Feb 2020."
           suggestedAlternative := some "node-fetch or undici" }
  else if packageName = "lodash" then
    some { type := .bloat, severity := .info
           detail := "Full lodash is 72KB min+gzip. Most projects use <5 functions."
           suggestedAlternative := some "lodash-es (tree-shakeable) or individual lodash packages" }
  else if packageName = "axios" then
    some { type := .bloat, severity := .info
           detail := "Native fetch is available in Node 18+. Axios adds unnecessary dependency for simple HTTP calls."
           suggestedAlternative := some "Native fetch API" }
  else if packageName = "jsonwebtoken" then
    some { type := .vulnerability, severity := .error
           detail := "CVE-2024-33663 — algorithm confusion vulnerability."
           source := some "https://nvd.nist.gov/vuln/detail/CVE-2024-33663"
           suggestedAlternative := some "jose" }
  else if packageName = "puppeteer" then
    some { type := .bloat, severity := .warning
           detail := "Downloads Chromium binary (~280MB). Often unnecessary for PDF/scraping tasks."
           suggestedAlternative := some "playwright (smaller) or pdfkit (for PDF generation)" }
  else if packageName = "body-parser" then
    some { type := .deprecated, severity := .info
           detail := "body-parser is built into Express 4.16+. Separate install is unnecessary."
           suggestedAlternative := some "express.json() and express.urlencoded()" }
  else none

/-- The numeric severity order of `calculateRiskLevel` (`?? 0` is unreachable:
every severity is in the record). -/
def severityOrder (s : RiskSeverity) : Nat :=
  match s with
  | .info => 0
  | .warning => 1
  | .error => 2
  | .critical => 3

/-- `calculateRiskLevel`: maximum severity over the factors, then thresholds.
`Math.max(...)` over the severity values; the source only calls this with a
non-empty factor list, for which folding from 0 computes the same maximum. -/
def calculateRiskLevel (factors : List RiskFactor) : RiskLevel :=
  let maxSeverity := (factors.map (fun f => severityOrder f.severity)).foldl max 0
  if maxSeverity ≥ 3 then .critical
  else if maxSeverity ≥ 2 then .high
  else if maxSeverity ≥ 1 then .medium
  else .low

/-- The per-event factor collection of `scoreRisks` (known-issue lookup plus
the training-bias flag for high-confidence training recall). -/
def riskFactorsFor (event : ClassifiedEvent) (pkgName : String) : List RiskFactor :=
  let factors : List RiskFactor :=
    match KNOWN_ISSUES pkgName with
    | some k => [k]
    | none => []
  if event.classification = .TRAINING_RECALL ∧ event.confidence ≥ 80 then
    factors ++ [{ type := .training_bias, severity := .info
                  detail := "Installed via training recall (" ++ toString event.confidence ++
                    "% confidence) with no alternatives considered." }]
  else factors

/-- `scoreRisks`: one assessment per non-abandoned install with a package name
and at least one factor. -/
def scoreRisks (events : List ClassifiedEvent) : List RiskAssessment :=
  let installEvents := events.filter (fun e => e.isInstall && !e.abandoned)
  installEvents.filterMap fun event =>
    match event.packageName with
    | none => none
    | some pkgName =>
      let factors := riskFactorsFor event pkgName
      if factors.length > 0 then
        some { packageName := pkgName
               packageVersion := event.packageVersion.getD "unknown"
               riskLevel := calculateRiskLevel factors
               factors := factors }
      else none

/-- A deterministic stand-in uuid stream (distinct value per index). -/
def uuidSeq (k : Nat) : String := String.mk (List.replicate k 'u')

/-- The events a chain references: root, sub-decisions, searches, abandoned
choices (the claim's "combined event set"; `finalSelection` is always the root
or a sub-decision). -/
def chainEvents (c : DecisionChain) : List ClassifiedEvent :=
  c.rootEvent :: (c.subDecisions ++ c.searchEvents ++ c.abandonedChoices)

/-- The event ids a chain claims. -/
def chainEventIds (c : DecisionChain) : List String :=
  (chainEvents c).map (·.id)

/-- A chain with its (freshly generated) `id` erased. -/
def chainCore (c : DecisionChain) : DecisionChain :=
  { c with id := "" }

/-- The ids collected so far by the chain-building scans. -/
def collIds (st : CollectSt) : List String :=
  (st.subs ++ st.searches ++ st.abandonedCs).map (·.id)

/-- Scan-state invariant: collected ids are distinct and recorded as used. -/
def CollectInv (st : CollectSt) : Prop :=
  (collIds st).Nodup ∧ ∀ x ∈ collIds st, x ∈ st.used

/-- Scenario B input: failed `npm install puppeteer`, web search, successful
`npm install pdfkit` (one session, 10 s apart). -/
def scenarioB : List RawEvent :=
  [ { id := "e1", sessionId := "s", timestamp := 0, action := .bash,
      raw := "npm install puppeteer", exitCode := some 1 },
    { id := "e2", sessionId := "s", timestamp := 10000, action := .web_search,
      raw := "lightweight pdf nodejs" },
    { id := "e3", sessionId := "s", timestamp := 20000, action := .bash,
      raw := "npm install pdfkit", exitCode := some 0 } ]

/-- The first classified install of Scenario B (the puppeteer event after
classification and abandonment marking). -/
def scenarioBInstall0 : ClassifiedEvent :=
  { toRawEvent :=
      { id := "e1", sessionId := "s", timestamp := 0, action := .bash,
        raw := "npm install puppeteer", exitCode := some 1 }
    classification := .TRAINING_RECALL
    confidence := 90
    packageName := some "puppeteer"
    packageManager := some .npm
    isInstall := true
    isSearch := false
    abandoned := true
    alternatives := [] }

/-- Scenario C input: a `CLAUDE.md` read whose text contains "Use PostgreSQL",
followed by `npm install pg`. -/
def scenarioC : List RawEvent :=
  [ { id := "c1", sessionId := "s", timestamp := 0, action := .file_read,
      raw := "CLAUDE.md", result := some "Use PostgreSQL" },
    { id := "c2", sessionId := "s", timestamp := 60000, action := .bash,
      raw := "npm install pg", exitCode := some 0 } ]

/-- The classified pg install of Scenario C. -/
def scenarioCInstall : ClassifiedEvent :=
  { toRawEvent :=
      { id := "c2", sessionId := "s", timestamp := 60000, action := .bash,
        raw := "npm install pg", exitCode := some 0 }
    classification := .TRAINING_RECALL
    confidence := 90
    packageName := some "pg"
    packageManager := some .npm
    isInstall := true
    isSearch := false
    abandoned := false
    alternatives := [] }

/-- Input with two searches surfacing the same candidate before an install. -/
def scenarioDup : List RawEvent :=
  [ { id := "h1", sessionId := "s", timestamp := 0, action := .web_search,
      raw := "searching hello", result := some "pdfkit" },
    { id := "h2", sessionId := "s", timestamp := 1000, action := .web_search,
      raw := "searching again hello", result := some "pdfkit" },
    { id := "h3", sessionId := "s", timestamp := 2000, action := .bash,
      raw := "npm install foo-zz", exitCode := some 0 } ]

/-- The classified install of `scenarioDup`. -/
def scenarioDupInstall : ClassifiedEvent :=
  { toRawEvent :=
      { id := "h3", sessionId := "s", timestamp := 2000, action := .bash,
        raw := "npm install foo-zz", exitCode := some 0 }
    classification := .REACTIVE_SEARCH
    confidence := 65
    packageName := some "foo-zz"
    packageManager := some .npm
    isInstall := true
    isSearch := false
    abandoned := false
    alternatives := ["pdfkit", "pdfkit"] }

/-- A single already-classified install event (chain-builder input). -/
def loneInstall : ClassifiedEvent :=
  { toRawEvent :=
      { id := "k1", sessionId := "s", timestamp := 0, action := .bash,
        raw := "npm install express", exitCode := some 0 }
    classification := .TRAINING_RECALL
    confidence := 90
    packageName := some "express"
    packageManager := some .npm
    isInstall := true
    isSearch := false
    abandoned := false
    alternatives := [] }

/-- A classified non-install, non-search filler event with the given id. -/
def fillerCE (i : String) (ts : Int) : ClassifiedEvent :=
  { toRawEvent :=
      { id := i, sessionId := "s", timestamp := ts, action := .file_read,
        raw := "notes.txt" }
    classification := .UNKNOWN
    confidence := 20
    isInstall := false
    isSearch := false
    abandoned := false
    alternatives := [] }

/-- A classified install event with the given id and timestamp. -/
def installCE (i : String) (ts : Int) : ClassifiedEvent :=
  { toRawEvent :=
      { id := i, sessionId := "s", timestamp := ts, action := .bash,
        raw := "npm install express", exitCode := some 0 }
    classification := .TRAINING_RECALL
    confidence := 90
    packageName := some "express"
    packageManager := some .npm
    isInstall := true
    isSearch := false
    abandoned := false
    alternatives := [] }

/-- A classified search event with the given id and timestamp. -/
def searchCE (i : String) (ts : Int) : ClassifiedEvent :=
  { toRawEvent :=
      { id := i, sessionId := "s", timestamp := ts, action := .web_search,
        raw := "searching hello" }
    classification := .UNKNOWN
    confidence := 40
    isInstall := false
    isSearch := true
    abandoned := false
    alternatives := [] }

/-- Chain-builder input refuting the 10-events-forward reading: a root install
followed by nine fillers and an install 5 s later at forward offset 10. -/
def scenarioFwd : List ClassifiedEvent :=
  [ installCE "a0" 0,
    fillerCE "a1" 100, fillerCE "a2" 200, fillerCE "a3" 300, fillerCE "a4" 400,
    fillerCE "a5" 500, fillerCE "a6" 600, fillerCE "a7" 700, fillerCE "a8" 800,
    fillerCE "a9" 900,
    installCE "a10" 5000 ]


/-- A classified, non-abandoned `moment` install (risk-scorer input). -/
def momentInstallCE : ClassifiedEvent :=
  { toRawEvent :=
      { id := "m1", sessionId := "s", timestamp := 0, action := .bash,
        raw := "npm install moment", exitCode := some 0 }
    classification := .UNKNOWN
    confidence := 30
    packageName := some "moment"
    packageManager := some .npm
    isInstall := true
    isSearch := false
    abandoned := false
    alternatives := [] }

/-- The risk assessment `scoreRisks` produces for `momentInstallCE`. -/
def momentAssessment : RiskAssessment :=
  { packageName := "moment"
    packageVersion := "unknown"
    riskLevel := .medium
    factors :=
      [{ type := .deprecated, severity := .warning
         detail := "Moment.js is in maintenance mode. Agents still recommend it due to high training weight."
         suggestedAlternative := some "date-fns or dayjs" }] }


/-- The combined scan state after `buildChainForInstall`'s backward and forward
loops (used to state lemmas about the builder). -/
def chainScan (rootInstall : ClassifiedEvent) (allEvents : List ClassifiedEvent)
    (used : List String) : CollectSt :=
  let used1 := rootInstall.id :: used
  let ses := sessionEventsOf allEvents rootInstall.sessionId
  let rootIndex := ses.findIdx (fun e => e.id = rootInstall.id)
  let st1 := (evtsAt ses (backIdxs rootIndex)).foldl backStep { used := used1 }
  (evtsAt ses (fwdIdxs rootIndex ses.length)).foldl (fwdStep rootInstall) st1

/-! ## Theorems -/

/-- **C2** (counterexample): on the Scenario B event list the chain builder
produces exactly one chain whose `abandonedChoices` is empty — the abandoned
puppeteer install is the chain's `rootEvent`, so no chain has the puppeteer
event among its `abandonedChoices`, contrary to the claim. -/
theorem C2_counterexample :
    ((buildChains uuidSeq 0 (classifyEvents scenarioB)).1.map
        (fun c => c.abandonedChoices)) = [[]] ∧
    ¬ ∃ c ∈ (buildChains uuidSeq 0 (classifyEvents scenarioB)).1,
        ∃ e ∈ c.abandonedChoices, e.id = "e1" := by
  decide

/-- **C2** (amended): on Scenario B, `classifyEvents` marks the puppeteer
install `abandoned = true` and classifies the pdfkit install
`REACTIVE_SEARCH`; `buildChains` produces exactly one chain whose `rootEvent`
is the (abandoned) puppeteer event, whose `searchEvents` contains the search,
whose `subDecisions` contains the pdfkit event, whose `abandonedChoices` is
empty, and whose `finalSelection` is the pdfkit event. -/
theorem C2_amended :
    ((classifyEvents scenarioB).map (fun e => (e.abandoned, e.classification))) =
      [(true, .TRAINING_RECALL), (false, .REACTIVE_SEARCH), (false, .REACTIVE_SEARCH)] ∧
    ((buildChains uuidSeq 0 (classifyEvents scenarioB)).1.map
        (fun c => (c.rootEvent.id, c.rootEvent.abandoned, c.chainOrder))) =
      [("e1", true, 1)] ∧
    ((buildChains uuidSeq 0 (classifyEvents scenarioB)).1.map
        (fun c => (c.subDecisions.map (·.id), c.searchEvents.map (·.id),
          c.abandonedChoices.map (·.id), c.finalSelection.id))) =
      [(["e3"], ["e2"], [], "e3")] := by
  decide

/-- **C3** (counterexample): a session whose single (hence chronologically
last) install fails with exit code 1 still has `abandoned = false` after
`classifyEvents` — the marking loop stops before the last install. -/
theorem C3_counterexample :
    ((classifyEvents
        [{ id := "f1", sessionId := "s", timestamp := 0, action := .bash,
           raw := "npm install leftpad-zz", exitCode := some 1 }]).map
      (fun e => (e.isInstall, hasNonzeroExit e, e.abandoned))) = [(true, true, false)] ∧
    ¬ ∀ e ∈ classifyEvents
        [{ id := "f1", sessionId := "s", timestamp := 0, action := .bash,
           raw := "npm install leftpad-zz", exitCode := some 1 }],
        e.isInstall = true → hasNonzeroExit e = true → e.abandoned = true := by
  decide

/-- **C4** (counterexample): running `buildChains` twice on the same classified
list — the second call drawing the next fresh uuids, as `uuid()` does — yields
chain lists that are *not* identical: the chain `id`s differ. -/
theorem C4_counterexample :
    (buildChains uuidSeq 0 [loneInstall]).1 ≠
      (buildChains uuidSeq (buildChains uuidSeq 0 [loneInstall]).2 [loneInstall]).1 := by
  decide

/-- **C5** (counterexample): on the Scenario C events the pg install is *not*
classified `USER_DIRECTED` 90: the substring test fails (`"pg"` does not occur
in `"use postgresql"`), and the high-training-weight rule yields
`TRAINING_RECALL` 90 instead. -/
theorem C5_counterexample :
    ((classifyEvents scenarioC).map (fun e => (e.packageName, e.classification, e.confidence))) =
      [(none, .USER_DIRECTED, 60), (some "pg", .TRAINING_RECALL, 90)] ∧
    DiscoveryType.TRAINING_RECALL ≠ DiscoveryType.USER_DIRECTED := by
  decide

/-- **C5** (amended): on Scenario C the pg install is classified
`TRAINING_RECALL` with confidence 90: `packageMentionedIn "pg" "Use PostgreSQL"`
is false so the `USER_DIRECTED` rule cannot fire, and `pg` is on the npm
high-training-weight list. -/
theorem C5_amended :
    packageMentionedIn "pg" "Use PostgreSQL" = false ∧
    isHighTrainingWeight "pg" .npm = true ∧
    ((classifyEvents scenarioC).map (fun e => (e.classification, e.confidence))) =
      [(.USER_DIRECTED, 60), (.TRAINING_RECALL, 90)] := by
  decide

/-- **C7** (counterexample): with two look-back searches whose results both
contain `pdfkit`, the emitted install's `alternatives` is
`["pdfkit", "pdfkit"]` — not deduplicated across search events. -/
theorem C7_counterexample :
    ((classifyEvents scenarioDup).map (·.alternatives)) =
      [["pdfkit"], ["pdfkit"], ["pdfkit", "pdfkit"]] ∧
    ∃ e ∈ classifyEvents scenarioDup, e.isInstall = true ∧ ¬ e.alternatives.Nodup := by
  decide

/-- **C8** (counterexample): under the npm rules a token with two non-leading
`@`s is split at the *first* of them, not the last: `a@1@2` parses to name `a`
with version `1@2` (the claim requires version `2`), and likewise for the
scoped token `@s/n@1@2`. -/
theorem C8_counterexample :
    parsePackageSpec "a@1@2" .npm = ("a", some "1@2") ∧
    parsePackageSpec "@s/n@1@2" .npm = ("@s/n", some "1@2") ∧
    ("1@2" : String) ≠ "2" := by
  decide

/-- **C6** (counterexample): the forward scan visits at most 9 following
events, not 10.  In `scenarioFwd` the install `a10` sits exactly 10 events
after the root, in the same session, unused, well within the 30 s window —
yet it is not collected into `subDecisions` (nor anywhere else). -/
theorem C6_counterexample :
    (sessionEventsOf scenarioFwd "s").findIdx
        (fun e => e.id = (installCE "a0" 0).id) = 0 ∧
    (sessionEventsOf scenarioFwd "s")[10]? = some (installCE "a10" 5000) ∧
    (installCE "a10" 5000).isInstall = true ∧
    ((installCE "a10" 5000).timestamp - (installCE "a0" 0).timestamp < 30000) ∧
    (buildChainForInstall "u" (installCE "a0" 0) scenarioFwd []).1.subDecisions = [] ∧
    (buildChainForInstall "u" (installCE "a0" 0) scenarioFwd []).1.searchEvents = [] ∧
    (buildChainForInstall "u" (installCE "a0" 0) scenarioFwd []).1.abandonedChoices = [] := by
  decide

/-- `buildChainForInstall`'s returned used-set does not depend on the uuid. -/
theorem bCFI_snd_indep (u1 u2 : String) (ie : ClassifiedEvent)
    (es : List ClassifiedEvent) (us : List String) :
    (buildChainForInstall u1 ie es us).2 = (buildChainForInstall u2 ie es us).2 := rfl

/-- Apart from the id field, `buildChainForInstall`'s chain does not depend on
the uuid. -/
theorem bCFI_core_indep (u1 u2 : String) (ie : ClassifiedEvent)
    (es : List ClassifiedEvent) (us : List String) (o : Nat) :
    chainCore { (buildChainForInstall u1 ie es us).1 with chainOrder := o } =
      chainCore { (buildChainForInstall u2 ie es us).1 with chainOrder := o } := rfl

/-- The chain-building loop is deterministic modulo the uuid stream. -/
theorem go_core_indep (g1 g2 : Nat → String) (s1 s2 : Nat)
    (allEvents : List ClassifiedEvent) :
    ∀ (ies : List ClassifiedEvent) (used : List String) (order : Nat),
      (buildChainsGo g1 s1 allEvents ies used order).map chainCore =
        (buildChainsGo g2 s2 allEvents ies used order).map chainCore := by
  intro ies
  induction ies with
  | nil => intro used order; rfl
  | cons ie rest ih =>
    intro used order
    unfold buildChainsGo
    by_cases h : ie.id ∈ used
    · simp only [if_pos h]
      exact ih used order
    · simp only [if_neg h, List.map_cons]
      refine congrArg₂ List.cons ?_ ?_
      · exact bCFI_core_indep (g1 (s1 + order)) (g2 (s2 + order)) ie allEvents used (order + 1)
      · rw [bCFI_snd_indep (g1 (s1 + order)) (g2 (s2 + order)) ie allEvents used]
        exact ih _ _

/-- **C4** (amended): `buildChains` is deterministic modulo chain ids: on the
same classified list, runs with arbitrary uuid streams and stream positions —
in particular a run and an immediate re-run — produce chain lists identical
field by field once the freshly generated `id` field is erased. -/
theorem C4_amended (g1 g2 : Nat → String) (s1 s2 : Nat)
    (events : List ClassifiedEvent) :
    ((buildChains g1 s1 events).1.map chainCore) =
      ((buildChains g2 s2 events).1.map chainCore) := by
  exact go_core_indep g1 g2 s1 s2 events (events.filter (·.isInstall)) [] 0

/-- `takeWhile` passes over a prefix whose elements all satisfy the predicate. -/
theorem takeWhile_append_of_all {p : Char → Bool} {a : List Char} (b : List Char)
    (ha : ∀ c ∈ a, p c = true) :
    (a ++ b).takeWhile p = a ++ b.takeWhile p := by
  induction a with
  | nil => rfl
  | cons c cs ih =>
    have hpc : p c = true := ha c (by simp)
    simp only [List.cons_append, List.takeWhile_cons, hpc, if_true]
    exact congrArg (List.cons c) (ih (fun x hx => ha x (by simp [hx])))

/-- `dropWhile` passes over a prefix whose elements all satisfy the predicate. -/
theorem dropWhile_append_of_all {p : Char → Bool} {a : List Char} (b : List Char)
    (ha : ∀ c ∈ a, p c = true) :
    (a ++ b).dropWhile p = b.dropWhile p := by
  induction a with
  | nil => rfl
  | cons c cs ih =>
    have hpc : p c = true := ha c (by simp)
    simp only [List.cons_append, List.dropWhile_cons, hpc, if_true]
    exact ih (fun x hx => ha x (by simp [hx]))

/-- A non-empty string has non-empty character data. -/
theorem data_ne_nil {s : String} (h : s ≠ "") : s.data ≠ [] := by
  intro hd
  apply h
  cases s with
  | mk d => show String.mk d = ""; rw [show d = [] from hd]

/-- `parseNpmSpec` splits at the first non-leading `@`, in both the plain and
the scoped shape. -/
theorem parseNpmSpec_firstAt (a b : List Char) (ha : '@' ∉ a) (ha0 : a ≠ [])
    (hb : b ≠ []) (hn : '\n' ∉ b) :
    parseNpmSpec (a ++ '@' :: b) = (a, some b) ∧
    parseNpmSpec ('@' :: a ++ '@' :: b) = ('@' :: a, some b) := by
  have hall : ∀ c ∈ a, (decide ¬ (c = '@')) = true := by
    intro c hc
    simp only [decide_not, Bool.not_eq_true', decide_eq_false_iff_not]
    exact fun he => ha (he ▸ hc)
  have htake : (a ++ '@' :: b).takeWhile (· ≠ '@') = a := by
    rw [takeWhile_append_of_all _ hall]
    simp [List.takeWhile_cons]
  have hdrop : (a ++ '@' :: b).dropWhile (· ≠ '@') = '@' :: b := by
    rw [dropWhile_append_of_all _ hall]
    simp [List.dropWhile_cons]
  constructor
  · obtain ⟨c, cs, hcs⟩ : ∃ c cs, a = c :: cs := by
      cases ha2 : a with
      | nil => exact absurd ha2 ha0
      | cons c cs => exact ⟨c, cs, rfl⟩
    have hc : c ≠ '@' := fun he => ha (he ▸ (hcs ▸ List.mem_cons_self c cs))
    subst hcs
    show parseNpmSpec (c :: (cs ++ '@' :: b)) = (c :: cs, some b)
    unfold parseNpmSpec
    split
    · rename_i heq
      injection heq with hh _
      exact absurd hh hc
    · simp only [List.cons_append] at htake hdrop
      rw [show (c :: (cs ++ '@' :: b)).takeWhile (· ≠ '@') = c :: cs from htake,
          show (c :: (cs ++ '@' :: b)).dropWhile (· ≠ '@') = '@' :: b from hdrop]
      simp [hb, hn]
  · show parseNpmSpec ('@' :: (a ++ '@' :: b)) = ('@' :: a, some b)
    unfold parseNpmSpec
    split
    · rename_i heq
      injection heq with _ hrest
      rw [← hrest, htake, hdrop]
      simp [ha0, hb, hn]
    · rename_i hne
      exact absurd rfl (hne (a ++ '@' :: b))

/-- **C8** (amended): the npm rules split a package token at the *first*
non-leading `@`.  For any `@`-free non-empty name and non-empty (newline-free)
version — which may itself contain further `@`s — `name@version` parses to
that name and version, and `@scope∕rest@version` keeps the leading `@` on the
name and again splits before `version`. -/
theorem C8_amended (s1 s2 : String)
    (h1 : '@' ∉ s1.data) (h2 : s1 ≠ "") (h3 : s2 ≠ "") (h4 : '\n' ∉ s2.data) :
    parsePackageSpec (s1 ++ "@" ++ s2) .npm = (s1, some s2) ∧
    parsePackageSpec ("@" ++ s1 ++ "@" ++ s2) .npm = ("@" ++ s1, some s2) := by
  have key := parseNpmSpec_firstAt s1.data s2.data h1 (data_ne_nil h2) (data_ne_nil h3) h4
  have hd1 : (s1 ++ "@" ++ s2).data = s1.data ++ '@' :: s2.data := by
    simp [String.data_append]
  have hd2 : ("@" ++ s1 ++ "@" ++ s2).data = '@' :: s1.data ++ '@' :: s2.data := by
    simp [String.data_append]
  constructor
  · show (let r := parseNpmSpec (s1 ++ "@" ++ s2).data
          (String.mk r.1, r.2.map String.mk)) = (s1, some s2)
    rw [hd1]
    simp only [key.1]
    rfl
  · show (let r := parseNpmSpec ("@" ++ s1 ++ "@" ++ s2).data
          (String.mk r.1, r.2.map String.mk)) = ("@" ++ s1, some s2)
    rw [hd2]
    simp only [key.2]
    show (String.mk ('@' :: s1.data), some (String.mk s2.data)) = ("@" ++ s1, some s2)
    have : String.mk ('@' :: s1.data) = "@" ++ s1 := by
      cases s1 with
      | mk d => rfl
    rw [this]

/-- **C8** (witness): the amended split theorem applied to the concrete token
`pkg@1.0.0@next` (a version spec containing a further `@`). -/
theorem C8_witness :
    ('@' ∉ ("pkg" : String).data) ∧ ("pkg" : String) ≠ "" ∧
    ("1.0.0@next" : String) ≠ "" ∧ ('\n' ∉ ("1.0.0@next" : String).data) ∧
    parsePackageSpec ("pkg" ++ "@" ++ "1.0.0@next") .npm = ("pkg", some "1.0.0@next") ∧
    parsePackageSpec ("@" ++ "pkg" ++ "@" ++ "1.0.0@next") .npm =
      ("@" ++ "pkg", some "1.0.0@next") := by
  have h := C8_amended "pkg" "1.0.0@next" (by decide) (by decide) (by decide) (by decide)
  exact ⟨by decide, by decide, by decide, by decide, h.1, h.2⟩

/-- The abandonment-marking update leaves `isInstall` unchanged. -/
theorem markOne_isInstall (n k0 : Nat) (e0 : ClassifiedEvent) :
    (if e0.abandoned then e0
      else if k0 + 1 < n ∧ hasNonzeroExit e0 then { e0 with abandoned := true }
      else e0).isInstall = e0.isInstall := by
  split
  · rfl
  · split <;> rfl

/-- The marking pass preserves the number of install events. -/
theorem markGo_filter_length (n : Nat) :
    ∀ (cs : List ClassifiedEvent) (k0 : Nat),
      ((markGo n k0 cs).filter (·.isInstall)).length =
        (cs.filter (·.isInstall)).length := by
  intro cs
  induction cs with
  | nil => intro k0; rfl
  | cons e0 rest ih =>
    intro k0
    unfold markGo
    by_cases hi : e0.isInstall = true
    · rw [if_pos hi]
      have hsame : (if e0.abandoned then e0
          else if k0 + 1 < n ∧ hasNonzeroExit e0 then { e0 with abandoned := true }
          else e0).isInstall = true := by rw [markOne_isInstall]; exact hi
      rw [List.filter_cons, List.filter_cons, if_pos hsame, if_pos hi]
      simp only [List.length_cons]
      rw [ih (k0 + 1)]
    · rw [if_neg hi]
      rw [List.filter_cons, List.filter_cons, if_neg hi, if_neg hi]
      exact ih k0

/-- After the marking pass, an install at a non-final install position whose
exit code is defined and non-zero is abandoned. -/
theorem markGo_filter_pos (n : Nat) :
    ∀ (cs : List ClassifiedEvent) (k0 j : Nat) (e : ClassifiedEvent),
      ((markGo n k0 cs).filter (·.isInstall))[j]? = some e →
      k0 + j + 1 < n → hasNonzeroExit e = true → e.abandoned = true := by
  intro cs
  induction cs with
  | nil => intro k0 j e h _ _; simp [markGo] at h
  | cons e0 rest ih =>
    intro k0 j e h hj hx
    unfold markGo at h
    by_cases hi : e0.isInstall = true
    · rw [if_pos hi] at h
      have hsame : (if e0.abandoned then e0
          else if k0 + 1 < n ∧ hasNonzeroExit e0 then { e0 with abandoned := true }
          else e0).isInstall = true := by rw [markOne_isInstall]; exact hi
      rw [List.filter_cons, if_pos hsame] at h
      match j, h with
      | 0, h =>
        have he : (if e0.abandoned then e0
            else if k0 + 1 < n ∧ hasNonzeroExit e0 then { e0 with abandoned := true }
            else e0) = e := by simpa using h
        by_cases hab : e0.abandoned
        · rw [if_pos hab] at he
          rw [← he]; exact hab
        · rw [if_neg hab] at he
          by_cases hcond : k0 + 1 < n ∧ hasNonzeroExit e0
          · rw [if_pos hcond] at he
            rw [← he]
          · rw [if_neg hcond] at he
            exact absurd ⟨by omega, by rw [he]; exact hx⟩ hcond
      | (j' + 1), h =>
        rw [List.getElem?_cons_succ] at h
        exact ih (k0 + 1) j' e h (by omega) hx
    · rw [if_neg hi] at h
      rw [List.filter_cons, if_neg hi] at h
      exact ih k0 j e h hj hx

/-- **C3** (amended): after `classifyEvents`' second pass, every install event
at a position *other than the last* of the chronological install list whose
exit code is defined and non-zero has `abandoned = true`.  (The marking loop's
bound `i < installEvents.length - 1` exempts the last install — see the
counterexample.) -/
theorem C3_amended (events : List RawEvent) (j : Nat) (e : ClassifiedEvent)
    (h : ((classifyEvents events).filter (·.isInstall))[j]? = some e)
    (hj : j + 1 < ((classifyEvents events).filter (·.isInstall)).length)
    (hx : hasNonzeroExit e = true) :
    e.abandoned = true := by
  unfold classifyEvents markAbandonedInstalls at h hj
  rw [markGo_filter_length] at hj
  exact markGo_filter_pos _ _ 0 j e h (by omega) hx

/-- **C3** (witness): the amended theorem applied to Scenario B, whose first
install (the failed puppeteer one, followed by another install) is abandoned. -/
theorem C3_witness :
    (((classifyEvents scenarioB).filter (·.isInstall))[0]? = some scenarioBInstall0) ∧
    (0 + 1 < ((classifyEvents scenarioB).filter (·.isInstall)).length) ∧
    hasNonzeroExit scenarioBInstall0 = true ∧
    scenarioBInstall0.abandoned = true := by
  refine ⟨by decide, by decide, by decide, ?_⟩
  exact C3_amended scenarioB 0 scenarioBInstall0 (by decide) (by decide) (by decide)

/-- Every factor the static `KNOWN_ISSUES` table produces has severity at most
`error` (order 2). -/
theorem KNOWN_ISSUES_severity (p : String) (k : RiskFactor)
    (h : KNOWN_ISSUES p = some k) : severityOrder k.severity ≤ 2 := by
  unfold KNOWN_ISSUES at h
  split_ifs at h <;> simp only [Option.some.injEq] at h <;> try (rw [← h]; decide)

/-- Every factor `scoreRisks` collects for an event has severity at most
`error`: known issues are bounded by the table, and the only factor the scorer
adds itself (`training_bias`) is `info`. -/
theorem riskFactorsFor_severity (ev : ClassifiedEvent) (p : String) (f : RiskFactor)
    (h : f ∈ riskFactorsFor ev p) : severityOrder f.severity ≤ 2 := by
  unfold riskFactorsFor at h
  split_ifs at h
  · rw [List.mem_append] at h
    rcases h with h | h
    · cases hk : KNOWN_ISSUES p with
      | none => rw [hk] at h; simp at h
      | some k =>
        rw [hk] at h
        simp only [List.mem_singleton] at h
        rw [h]; exact KNOWN_ISSUES_severity p k hk
    · simp only [List.mem_singleton] at h
      rw [h]
      show severityOrder RiskSeverity.info ≤ 2
      decide
  · cases hk : KNOWN_ISSUES p with
    | none => rw [hk] at h; simp at h
    | some k =>
      rw [hk] at h
      simp only [List.mem_singleton] at h
      rw [h]; exact KNOWN_ISSUES_severity p k hk

/-- Folding `max` over values bounded by 2 stays bounded by 2. -/
theorem foldl_max_le : ∀ (l : List Nat) (acc : Nat), acc ≤ 2 → (∀ x ∈ l, x ≤ 2) →
    l.foldl max acc ≤ 2 := by
  intro l
  induction l with
  | nil => intro acc ha _; exact ha
  | cons x xs ih =>
    intro acc ha hl
    rw [List.foldl_cons]
    exact ih (max acc x) (by
      have := hl x (by simp)
      omega) (fun y hy => hl y (by simp [hy]))

/-- With all severities at most `error`, the derived risk level is never
`critical`. -/
theorem calculateRiskLevel_not_critical (factors : List RiskFactor)
    (h : ∀ f ∈ factors, severityOrder f.severity ≤ 2) :
    calculateRiskLevel factors = .low ∨ calculateRiskLevel factors = .medium ∨
      calculateRiskLevel factors = .high := by
  unfold calculateRiskLevel
  have hmax : (factors.map (fun f => severityOrder f.severity)).foldl max 0 ≤ 2 := by
    apply foldl_max_le _ 0 (by omega)
    intro x hx
    rw [List.mem_map] at hx
    obtain ⟨f, hf, hfx⟩ := hx
    rw [← hfx]
    exact h f hf
  rw [if_neg (by omega)]
  split_ifs <;> simp

/-- **C10**: with the static `KNOWN_ISSUES` table shipped in the source,
`scoreRisks` never returns an assessment with risk level `critical`: every
returned level is `low`, `medium`, or `high`. -/
theorem C10 (events : List ClassifiedEvent) (a : RiskAssessment)
    (ha : a ∈ scoreRisks events) :
    a.riskLevel = .low ∨ a.riskLevel = .medium ∨ a.riskLevel = .high := by
  unfold scoreRisks at ha
  rw [List.mem_filterMap] at ha
  obtain ⟨event, _, hf⟩ := ha
  cases hpn : event.packageName with
  | none => rw [hpn] at hf; simp at hf
  | some pkg =>
    rw [hpn] at hf
    simp only at hf
    split_ifs at hf
    · simp only [Option.some.injEq] at hf
      rw [← hf]
      exact calculateRiskLevel_not_critical _ (riskFactorsFor_severity event pkg)

/-- **C10** (witness): the theorem applied to the assessment produced for a
concrete non-abandoned `moment` install. -/
theorem C10_witness :
    momentAssessment ∈ scoreRisks [momentInstallCE] ∧
    (momentAssessment.riskLevel = .low ∨ momentAssessment.riskLevel = .medium ∨
      momentAssessment.riskLevel = .high) := by
  refine ⟨by decide, ?_⟩
  exact C10 [momentInstallCE] momentAssessment (by decide)

/-- A string of positive length is non-empty. -/
theorem string_ne_empty_of_length_pos {s : String} (h : s.length > 0) : s ≠ "" := by
  intro he
  rw [he] at h
  simp at h

/-- Every parsed package has a non-empty name (`splitPackageArgs` filters the
empty ones). -/
theorem parseInstallCommand_names (cmd : String) :
    ∀ p ∈ parseInstallCommand cmd, p.name ≠ "" := by
  intro p hp
  unfold parseInstallCommand at hp
  rw [List.mem_flatMap] at hp
  obtain ⟨mp, _, hp⟩ := hp
  rw [List.mem_flatMap] at hp
  obtain ⟨pat, _, hp⟩ := hp
  cases hm : scanMatch pat cmd.data with
  | none => rw [hm] at hp; simp at hp
  | some cap =>
    rw [hm] at hp
    unfold splitPackageArgs at hp
    rw [List.mem_filter] at hp
    exact string_ne_empty_of_length_pos (by simpa using hp.2)

/-- Non-install events are classified with `isInstall = false`. -/
theorem classifyOne_not_install (allEvents : List RawEvent) (i : Nat)
    (ev : RawEvent) (st : ScanState) (h : ¬ isInstallEvent ev = true) :
    (classifyOne allEvents i ev st).isInstall = false := by
  unfold classifyOne
  rw [if_neg h]
  split_ifs <;> rfl

/-- Classification annotates the event: the underlying raw event is kept. -/
theorem classifyOne_toRawEvent (allEvents : List RawEvent) (i : Nat)
    (ev : RawEvent) (st : ScanState) :
    (classifyOne allEvents i ev st).toRawEvent = ev := by
  unfold classifyOne
  split_ifs <;>
    first
      | rfl
      | (dsimp only; cases (parseInstallCommand ev.raw).head? <;> rfl)

/-- An install classification carries the name of the first parsed package
(the `UNKNOWN`/30 no-package branch is unreachable because install events are
exactly those whose command parses to a non-empty package list). -/
theorem classifyOne_install_packageName (allEvents : List RawEvent) (i : Nat)
    (ev : RawEvent) (st : ScanState)
    (h : (classifyOne allEvents i ev st).isInstall = true) :
    ∃ p ps, parseInstallCommand ev.raw = p :: ps ∧
      (classifyOne allEvents i ev st).packageName = some p.name := by
  by_cases hinst : isInstallEvent ev = true
  · have hlen : (parseInstallCommand ev.raw).length > 0 := by
      unfold isInstallEvent at hinst
      exact of_decide_eq_true (Bool.and_elim_right hinst)
    obtain ⟨p, ps, hps⟩ : ∃ p ps, parseInstallCommand ev.raw = p :: ps := by
      cases hc : parseInstallCommand ev.raw with
      | nil => rw [hc] at hlen; simp at hlen
      | cons p ps => exact ⟨p, ps, rfl⟩
    refine ⟨p, ps, hps, ?_⟩
    unfold classifyOne
    rw [if_pos hinst]
    rw [hps]
    simp only [List.head?_cons]
    rfl
  · rw [classifyOne_not_install allEvents i ev st hinst] at h
    simp at h

/-- Every output of the forward pass is the classification of some event. -/
theorem classifyPass_mem (allEvents : List RawEvent) :
    ∀ (rest : List RawEvent) (i : Nat) (st : ScanState) (ce : ClassifiedEvent),
      ce ∈ classifyPass allEvents i rest st →
      ∃ i' ev st', ce = classifyOne allEvents i' ev st' := by
  intro rest
  induction rest with
  | nil => intro i st ce h; simp [classifyPass] at h
  | cons ev tail ih =>
    intro i st ce h
    unfold classifyPass at h
    rcases List.mem_cons.mp h with h | h
    · exact ⟨i, ev, trackEvent st ev, h⟩
    · exact ih (i + 1) (trackEvent st ev) ce h

/-- The marking pass returns each event unchanged or with `abandoned := true`. -/
theorem markGo_mem (n : Nat) :
    ∀ (cs : List ClassifiedEvent) (k : Nat) (e : ClassifiedEvent),
      e ∈ markGo n k cs →
      ∃ e₀ ∈ cs, e = e₀ ∨ e = { e₀ with abandoned := true } := by
  intro cs
  induction cs with
  | nil => intro k e h; simp [markGo] at h
  | cons e0 rest ih =>
    intro k e h
    unfold markGo at h
    by_cases hi : e0.isInstall = true
    · rw [if_pos hi] at h
      rcases List.mem_cons.mp h with h | h
      · refine ⟨e0, by simp, ?_⟩
        rw [h]
        split
        · exact Or.inl rfl
        · split
          · exact Or.inr rfl
          · exact Or.inl rfl
      · obtain ⟨e₀, he₀, hcase⟩ := ih (k + 1) e h
        exact ⟨e₀, by simp [he₀], hcase⟩
    · rw [if_neg hi] at h
      rcases List.mem_cons.mp h with h | h
      · exact ⟨e0, by simp, Or.inl h⟩
      · obtain ⟨e₀, he₀, hcase⟩ := ih k e h
        exact ⟨e₀, by simp [he₀], hcase⟩

/-- **C9**: every classified event with `isInstall = true` has a defined,
non-empty `packageName` — the name of the first package parsed from its
command. -/
theorem C9 (events : List RawEvent) (e : ClassifiedEvent)
    (he : e ∈ classifyEvents events) (hi : e.isInstall = true) :
    ∃ p ps, parseInstallCommand e.raw = p :: ps ∧
      e.packageName = some p.name ∧ p.name ≠ "" := by
  unfold classifyEvents markAbandonedInstalls at he
  obtain ⟨e₀, he₀, hcase⟩ := markGo_mem _ _ 0 e he
  obtain ⟨i', ev, st', hco⟩ := classifyPass_mem events _ 0 {} e₀ he₀
  have hraw : e.raw = e₀.raw := by rcases hcase with h | h <;> rw [h]
  have hpn : e.packageName = e₀.packageName := by rcases hcase with h | h <;> rw [h]
  have hii : e₀.isInstall = true := by
    rcases hcase with h | h <;> rw [h] at hi <;> exact hi
  rw [hco] at hii
  obtain ⟨p, ps, hparse, hname⟩ :=
    classifyOne_install_packageName events i' ev st' hii
  have hraw2 : e.raw = ev.raw := by
    rw [hraw, hco]
    show (classifyOne events i' ev st').toRawEvent.raw = ev.raw
    rw [classifyOne_toRawEvent]
  refine ⟨p, ps, ?_, ?_, ?_⟩
  · rw [hraw2]; exact hparse
  · rw [hpn, hco]; exact hname
  · exact parseInstallCommand_names _ p (hparse ▸ List.mem_cons_self p ps)

/-- **C9** (witness): the theorem applied to the pg install of Scenario C. -/
theorem C9_witness :
    (scenarioCInstall ∈ classifyEvents scenarioC) ∧ scenarioCInstall.isInstall = true ∧
    ∃ p ps, parseInstallCommand scenarioCInstall.raw = p :: ps ∧
      scenarioCInstall.packageName = some p.name ∧ p.name ≠ "" := by
  refine ⟨by decide, by decide, ?_⟩
  exact C9 scenarioC scenarioCInstall (by decide) (by decide)

/-- First-occurrence deduplication yields a duplicate-free list. -/
theorem dedupKeepFirst_nodup : ∀ (l : List String), (dedupKeepFirst l).Nodup := by
  intro l
  induction l with
  | nil => exact List.nodup_nil
  | cons x xs ih =>
    unfold dedupKeepFirst
    refine List.Nodup.cons ?_ (List.Nodup.filter _ ih)
    intro hx
    have := (List.mem_filter.mp hx).2
    simp at this

/-- Each per-event extracted alternatives list is deduplicated and capped at
10 entries. -/
theorem extractAlternatives_nodup_le10 (ev : RawEvent) :
    (extractAlternativesFromSearch ev).Nodup ∧
      (extractAlternativesFromSearch ev).length ≤ 10 := by
  unfold extractAlternativesFromSearch
  cases ev.result with
  | none => exact ⟨List.nodup_nil, by simp⟩
  | some res =>
    constructor
    · exact List.Sublist.nodup (List.take_sublist _ _) (dedupKeepFirst_nodup _)
    · exact (List.length_take_le _ _)

/-- The install decision procedure's `alternatives` output is the window-based
extraction, except in the two `TRAINING_RECALL` branches where it is `[]` —
reachable only when the window holds no search event at all. -/
theorem classifySingleInstall_alternatives (pkg : ParsedPackage) (i : Nat)
    (allEvents : List RawEvent) (cc pc : List String) :
    (classifySingleInstall pkg i allEvents cc pc).alternatives =
      ((windowAt allEvents i).filter isSearchEvent).flatMap
        extractAlternativesFromSearch ∨
    ((classifySingleInstall pkg i allEvents cc pc).alternatives = [] ∧
      (windowAt allEvents i).filter isSearchEvent = []) := by
  unfold classifySingleInstall
  dsimp only
  split_ifs with h1 h2 h3 h4 h5 h6
  · exact Or.inl rfl
  · exact Or.inl rfl
  · exact Or.inl rfl
  · exact Or.inl rfl
  · exact Or.inl rfl
  · -- high-training-weight branch: no search in window
    refine Or.inr ⟨rfl, ?_⟩
    rw [List.filter_eq_nil_iff]
    intro a ha
    have hs : (windowAt allEvents i).any isSearchEvent = false := by
      by_cases hany : (windowAt allEvents i).any isSearchEvent = true
      · by_cases hfail : (windowAt allEvents i).any isFailedBash = true
        · exact absurd (by rw [hany, hfail]; rfl) h3
        · have : (windowAt allEvents i).any isFailedBash = false :=
            Bool.eq_false_iff.mpr hfail
          exact absurd (by rw [hany, this]; rfl) h4
      · exact Bool.eq_false_iff.mpr hany
    intro hcontra
    rw [List.any_eq_false] at hs
    exact hs a ha hcontra
  · refine Or.inr ⟨rfl, ?_⟩
    rw [List.filter_eq_nil_iff]
    intro a ha
    have hs : (windowAt allEvents i).any isSearchEvent = false := by
      by_cases hany : (windowAt allEvents i).any isSearchEvent = true
      · by_cases hfail : (windowAt allEvents i).any isFailedBash = true
        · exact absurd (by rw [hany, hfail]; rfl) h3
        · have : (windowAt allEvents i).any isFailedBash = false :=
            Bool.eq_false_iff.mpr hfail
          exact absurd (by rw [hany, this]; rfl) h4
      · exact Bool.eq_false_iff.mpr hany
    intro hcontra
    rw [List.any_eq_false] at hs
    exact hs a ha hcontra

/-- Positional version of the marking-pass preservation: positions align and
only `abandoned` can change. -/
theorem markGo_getElem (n : Nat) :
    ∀ (cs : List ClassifiedEvent) (k j : Nat) (e : ClassifiedEvent),
      (markGo n k cs)[j]? = some e →
      ∃ e₀, cs[j]? = some e₀ ∧ (e = e₀ ∨ e = { e₀ with abandoned := true }) := by
  intro cs
  induction cs with
  | nil => intro k j e h; simp [markGo] at h
  | cons e0 rest ih =>
    intro k j e h
    unfold markGo at h
    by_cases hi : e0.isInstall = true
    · rw [if_pos hi] at h
      dsimp only at h
      match j, h with
      | 0, h =>
        refine ⟨e0, List.getElem?_cons_zero, ?_⟩
        rw [List.getElem?_cons_zero] at h
        have he := Option.some.inj h
        rw [← he]
        split
        · exact Or.inl rfl
        · split
          · exact Or.inr rfl
          · exact Or.inl rfl
      | (j' + 1), h =>
        rw [List.getElem?_cons_succ] at h
        obtain ⟨e₀, h1, h2⟩ := ih (k + 1) j' e h
        exact ⟨e₀, by rw [List.getElem?_cons_succ]; exact h1, h2⟩
    · rw [if_neg hi] at h
      match j, h with
      | 0, h =>
        rw [List.getElem?_cons_zero] at h
        exact ⟨e0, List.getElem?_cons_zero, Or.inl (Option.some.inj h).symm⟩
      | (j' + 1), h =>
        rw [List.getElem?_cons_succ] at h
        obtain ⟨e₀, h1, h2⟩ := ih k j' e h
        exact ⟨e₀, by rw [List.getElem?_cons_succ]; exact h1, h2⟩

/-- The forward pass maps positions one-to-one: the output at `j` classifies
the input at `j`, at absolute index `i0 + j`. -/
theorem classifyPass_getElem (allEvents : List RawEvent) :
    ∀ (rest : List RawEvent) (i0 j : Nat) (st : ScanState) (e : ClassifiedEvent),
      (classifyPass allEvents i0 rest st)[j]? = some e →
      ∃ ev st', rest[j]? = some ev ∧ e = classifyOne allEvents (i0 + j) ev st' := by
  intro rest
  induction rest with
  | nil => intro i0 j st e h; simp [classifyPass] at h
  | cons ev tail ih =>
    intro i0 j st e h
    unfold classifyPass at h
    match j, h with
    | 0, h =>
      exact ⟨ev, trackEvent st ev, List.getElem?_cons_zero, by simpa using h.symm⟩
    | (j' + 1), h =>
      rw [List.getElem?_cons_succ] at h
      obtain ⟨ev', st', h1, h2⟩ := ih (i0 + 1) j' (trackEvent st ev) e h
      refine ⟨ev', st', by rw [List.getElem?_cons_succ]; exact h1, ?_⟩
      rw [h2]
      congr 1
      omega

/-- An install classification's `alternatives` equals the concatenated
per-search extraction over its look-back window. -/
theorem classifyOne_alternatives (allEvents : List RawEvent) (i : Nat)
    (ev : RawEvent) (st : ScanState)
    (h : (classifyOne allEvents i ev st).isInstall = true) :
    (classifyOne allEvents i ev st).alternatives =
      ((windowAt allEvents i).filter isSearchEvent).flatMap
        extractAlternativesFromSearch := by
  by_cases hinst : isInstallEvent ev = true
  · have hlen : (parseInstallCommand ev.raw).length > 0 := by
      unfold isInstallEvent at hinst
      exact of_decide_eq_true (Bool.and_elim_right hinst)
    obtain ⟨p, ps, hps⟩ : ∃ p ps, parseInstallCommand ev.raw = p :: ps := by
      cases hc : parseInstallCommand ev.raw with
      | nil => rw [hc] at hlen; simp at hlen
      | cons p ps => exact ⟨p, ps, rfl⟩
    have halt : (classifyOne allEvents i ev st).alternatives =
        (classifySingleInstall p i allEvents st.configFileContents
          st.packageFileContents).alternatives := by
      unfold classifyOne
      rw [if_pos hinst]
      dsimp only
      rw [hps]
      rfl
    rw [halt]
    rcases classifySingleInstall_alternatives p i allEvents
        st.configFileContents st.packageFileContents with hc | ⟨hc1, hc2⟩
    · exact hc
    · rw [hc1, hc2]; rfl
  · rw [classifyOne_not_install allEvents i ev st hinst] at h
    simp at h

/-- **C7** (amended): every install event the classifier emits has
`alternatives` equal to the *concatenation*, over the search/fetch events of
its 10-event look-back window, of each event's own extracted candidate list;
each per-event list is deduplicated and has at most 10 entries (the
concatenation itself need not be — see the counterexample). -/
theorem C7_amended (events : List RawEvent) (i : Nat) (e : ClassifiedEvent)
    (h : (classifyEvents events)[i]? = some e) (hi : e.isInstall = true) :
    e.alternatives =
      ((windowAt events i).filter isSearchEvent).flatMap
        extractAlternativesFromSearch ∧
    ∀ s ∈ (windowAt events i).filter isSearchEvent,
      (extractAlternativesFromSearch s).Nodup ∧
        (extractAlternativesFromSearch s).length ≤ 10 := by
  refine ⟨?_, fun s _ => extractAlternatives_nodup_le10 s⟩
  unfold classifyEvents markAbandonedInstalls at h
  obtain ⟨e₀, h0, hcase⟩ := markGo_getElem _ _ 0 i e h
  obtain ⟨ev, st', h1, h2⟩ := classifyPass_getElem events events 0 i {} e₀ h0
  have halt : e.alternatives = e₀.alternatives := by
    rcases hcase with hc | hc <;> rw [hc]
  have hii : e₀.isInstall = true := by
    rcases hcase with hc | hc <;> rw [hc] at hi <;> exact hi
  rw [halt, h2]
  rw [h2] at hii
  have := classifyOne_alternatives events (0 + i) ev st' hii
  simpa using this

/-- **C7** (witness): the amended theorem applied to the `scenarioDup`
install, whose window holds two search events. -/
theorem C7_witness :
    ((classifyEvents scenarioDup)[2]? = some scenarioDupInstall) ∧
    scenarioDupInstall.isInstall = true ∧
    (scenarioDupInstall.alternatives =
      ((windowAt scenarioDup 2).filter isSearchEvent).flatMap
        extractAlternativesFromSearch ∧
    ∀ s ∈ (windowAt scenarioDup 2).filter isSearchEvent,
      (extractAlternativesFromSearch s).Nodup ∧
        (extractAlternativesFromSearch s).length ≤ 10) := by
  refine ⟨by decide, by decide, ?_⟩
  exact C7_amended scenarioDup 2 scenarioDupInstall (by decide) (by decide)

/-- Common shape of the chain builder's scan steps: skip, or collect the event
into one of the three lists while marking its id used. -/
def StepOk (σ : CollectSt → ClassifiedEvent → CollectSt) : Prop :=
  ∀ st e, σ st e = st ∨
    (e.id ∉ st.used ∧
      (σ st e = { st with searches := st.searches ++ [e], used := e.id :: st.used } ∨
       σ st e = { st with abandonedCs := st.abandonedCs ++ [e], used := e.id :: st.used } ∨
       σ st e = { st with subs := st.subs ++ [e], used := e.id :: st.used }))

/-- The backward scan step has the common step shape. -/
theorem backStep_ok : StepOk backStep := by
  intro st e
  unfold backStep
  split_ifs with h1 h2 h3
  · exact Or.inl rfl
  · exact Or.inr ⟨h1, Or.inl rfl⟩
  · exact Or.inr ⟨h1, Or.inr (Or.inl rfl)⟩
  · exact Or.inl rfl

/-- The forward scan step has the common step shape. -/
theorem fwdStep_ok (root : ClassifiedEvent) : StepOk (fwdStep root) := by
  intro st e
  unfold fwdStep
  split_ifs with h1 h2 h3
  · exact Or.inl rfl
  · exact Or.inr ⟨h1, Or.inl rfl⟩
  · exact Or.inr ⟨h1, Or.inr (Or.inr rfl)⟩
  · exact Or.inl rfl

/-- A scan step never removes used ids. -/
theorem stepOk_used_sub {σ} (hσ : StepOk σ) (st : CollectSt) (e : ClassifiedEvent) :
    ∀ x ∈ st.used, x ∈ (σ st e).used := by
  intro x hx
  rcases hσ st e with h | ⟨_, h | h | h⟩ <;> rw [h]
  · exact hx
  · exact List.mem_cons_of_mem _ hx
  · exact List.mem_cons_of_mem _ hx
  · exact List.mem_cons_of_mem _ hx

/-- A scan never removes used ids. -/
theorem foldl_used_mono {σ} (hσ : StepOk σ) :
    ∀ (es : List ClassifiedEvent) (st : CollectSt) (x : String),
      x ∈ st.used → x ∈ (es.foldl σ st).used := by
  intro es
  induction es with
  | nil => intro st x hx; exact hx
  | cons e rest ih =>
    intro st x hx
    rw [List.foldl_cons]
    exact ih _ x (stepOk_used_sub hσ st e x hx)

/-- Every id a scan adds to the used set belongs to a scanned event. -/
theorem foldl_used_from {σ} (hσ : StepOk σ) :
    ∀ (es : List ClassifiedEvent) (st : CollectSt) (x : String),
      x ∈ (es.foldl σ st).used → x ∈ st.used ∨ x ∈ es.map (·.id) := by
  intro es
  induction es with
  | nil => intro st x hx; exact Or.inl hx
  | cons e rest ih =>
    intro st x hx
    rw [List.foldl_cons] at hx
    rcases ih _ x hx with h | h
    · rcases hσ st e with hs | ⟨_, hs | hs | hs⟩ <;> rw [hs] at h
      · exact Or.inl h
      all_goals
        rcases List.mem_cons.mp h with h' | h'
        · exact Or.inr (by rw [List.map_cons, h']; exact List.mem_cons_self _ _)
        · exact Or.inl h'
    · exact Or.inr (by rw [List.map_cons]; exact List.mem_cons_of_mem _ h)

/-- A scan never drops collected searches. -/
theorem foldl_searches_mono {σ} (hσ : StepOk σ) :
    ∀ (es : List ClassifiedEvent) (st : CollectSt) (f : ClassifiedEvent),
      f ∈ st.searches → f ∈ (es.foldl σ st).searches := by
  intro es
  induction es with
  | nil => intro st f hf; exact hf
  | cons e rest ih =>
    intro st f hf
    rw [List.foldl_cons]
    apply ih
    rcases hσ st e with h | ⟨_, h | h | h⟩ <;> rw [h]
    · exact hf
    · exact List.mem_append_left _ hf
    · exact hf
    · exact hf

/-- A scan never drops collected abandoned choices. -/
theorem foldl_abandoned_mono {σ} (hσ : StepOk σ) :
    ∀ (es : List ClassifiedEvent) (st : CollectSt) (f : ClassifiedEvent),
      f ∈ st.abandonedCs → f ∈ (es.foldl σ st).abandonedCs := by
  intro es
  induction es with
  | nil => intro st f hf; exact hf
  | cons e rest ih =>
    intro st f hf
    rw [List.foldl_cons]
    apply ih
    rcases hσ st e with h | ⟨_, h | h | h⟩ <;> rw [h]
    · exact hf
    · exact hf
    · exact List.mem_append_left _ hf
    · exact hf

/-- A scan never drops collected sub-decisions. -/
theorem foldl_subs_mono {σ} (hσ : StepOk σ) :
    ∀ (es : List ClassifiedEvent) (st : CollectSt) (f : ClassifiedEvent),
      f ∈ st.subs → f ∈ (es.foldl σ st).subs := by
  intro es
  induction es with
  | nil => intro st f hf; exact hf
  | cons e rest ih =>
    intro st f hf
    rw [List.foldl_cons]
    apply ih
    rcases hσ st e with h | ⟨_, h | h | h⟩ <;> rw [h]
    · exact hf
    · exact hf
    · exact hf
    · exact List.mem_append_left _ hf

/-- Every collected search was already collected or is a scanned event. -/
theorem foldl_searches_from {σ} (hσ : StepOk σ) :
    ∀ (es : List ClassifiedEvent) (st : CollectSt) (f : ClassifiedEvent),
      f ∈ (es.foldl σ st).searches → f ∈ st.searches ∨ f ∈ es := by
  intro es
  induction es with
  | nil => intro st f hf; exact Or.inl hf
  | cons e rest ih =>
    intro st f hf
    rw [List.foldl_cons] at hf
    rcases ih _ f hf with h | h
    · rcases hσ st e with hs | ⟨_, hs | hs | hs⟩ <;> rw [hs] at h
      · exact Or.inl h
      · rcases List.mem_append.mp h with h' | h'
        · exact Or.inl h'
        · exact Or.inr (by rw [List.mem_singleton.mp h']; exact List.mem_cons_self _ _)
      · exact Or.inl h
      · exact Or.inl h
    · exact Or.inr (List.mem_cons_of_mem _ h)

/-- Every collected abandoned choice was already collected or is a scanned
event. -/
theorem foldl_abandoned_from {σ} (hσ : StepOk σ) :
    ∀ (es : List ClassifiedEvent) (st : CollectSt) (f : ClassifiedEvent),
      f ∈ (es.foldl σ st).abandonedCs → f ∈ st.abandonedCs ∨ f ∈ es := by
  intro es
  induction es with
  | nil => intro st f hf; exact Or.inl hf
  | cons e rest ih =>
    intro st f hf
    rw [List.foldl_cons] at hf
    rcases ih _ f hf with h | h
    · rcases hσ st e with hs | ⟨_, hs | hs | hs⟩ <;> rw [hs] at h
      · exact Or.inl h
      · exact Or.inl h
      · rcases List.mem_append.mp h with h' | h'
        · exact Or.inl h'
        · exact Or.inr (by rw [List.mem_singleton.mp h']; exact List.mem_cons_self _ _)
      · exact Or.inl h
    · exact Or.inr (List.mem_cons_of_mem _ h)

/-- Every collected sub-decision was already collected or is a scanned event. -/
theorem foldl_subs_from {σ} (hσ : StepOk σ) :
    ∀ (es : List ClassifiedEvent) (st : CollectSt) (f : ClassifiedEvent),
      f ∈ (es.foldl σ st).subs → f ∈ st.subs ∨ f ∈ es := by
  intro es
  induction es with
  | nil => intro st f hf; exact Or.inl hf
  | cons e rest ih =>
    intro st f hf
    rw [List.foldl_cons] at hf
    rcases ih _ f hf with h | h
    · rcases hσ st e with hs | ⟨_, hs | hs | hs⟩ <;> rw [hs] at h
      · exact Or.inl h
      · exact Or.inl h
      · exact Or.inl h
      · rcases List.mem_append.mp h with h' | h'
        · exact Or.inl h'
        · exact Or.inr (by rw [List.mem_singleton.mp h']; exact List.mem_cons_self _ _)
    · exact Or.inr (List.mem_cons_of_mem _ h)

/-- Collected-id membership through a search insertion. -/
theorem collIds_insert_searches (st : CollectSt) (e : ClassifiedEvent)
    (u : List String) (x : String)
    (hx : x ∈ collIds { st with searches := st.searches ++ [e], used := u }) :
    x ∈ collIds st ∨ x = e.id := by
  simp only [collIds, List.map_append, List.mem_append, List.mem_map,
    List.mem_singleton, exists_eq_left] at hx ⊢
  rcases hx with (hA | hB | hE) | hC
  · exact Or.inl (Or.inl (Or.inl hA))
  · exact Or.inl (Or.inl (Or.inr hB))
  · exact Or.inr hE.symm
  · exact Or.inl (Or.inr hC)

/-- Collected-id membership through an abandoned-choice insertion. -/
theorem collIds_insert_abandoned (st : CollectSt) (e : ClassifiedEvent)
    (u : List String) (x : String)
    (hx : x ∈ collIds { st with abandonedCs := st.abandonedCs ++ [e], used := u }) :
    x ∈ collIds st ∨ x = e.id := by
  simp only [collIds, List.map_append, List.mem_append, List.mem_map,
    List.mem_singleton, exists_eq_left] at hx ⊢
  rcases hx with (hA | hB) | hC | hE
  · exact Or.inl (Or.inl (Or.inl hA))
  · exact Or.inl (Or.inl (Or.inr hB))
  · exact Or.inl (Or.inr hC)
  · exact Or.inr hE.symm

/-- Collected-id membership through a sub-decision insertion. -/
theorem collIds_insert_subs (st : CollectSt) (e : ClassifiedEvent)
    (u : List String) (x : String)
    (hx : x ∈ collIds { st with subs := st.subs ++ [e], used := u }) :
    x ∈ collIds st ∨ x = e.id := by
  simp only [collIds, List.map_append, List.mem_append, List.mem_map,
    List.mem_singleton, exists_eq_left] at hx ⊢
  rcases hx with ((hA | hE) | hB) | hC
  · exact Or.inl (Or.inl (Or.inl hA))
  · exact Or.inr hE.symm
  · exact Or.inl (Or.inl (Or.inr hB))
  · exact Or.inl (Or.inr hC)

/-- A step's new collected id, if any, was not yet used. -/
theorem stepOk_collIds {σ} (hσ : StepOk σ) (st : CollectSt) (e : ClassifiedEvent) :
    ∀ x ∈ collIds (σ st e), x ∈ collIds st ∨ (x = e.id ∧ e.id ∉ st.used) := by
  intro x hx
  rcases hσ st e with h | ⟨hu, h | h | h⟩ <;> rw [h] at hx
  · exact Or.inl hx
  · rcases collIds_insert_searches st e _ x hx with h' | h'
    · exact Or.inl h'
    · exact Or.inr ⟨h', hu⟩
  · rcases collIds_insert_abandoned st e _ x hx with h' | h'
    · exact Or.inl h'
    · exact Or.inr ⟨h', hu⟩
  · rcases collIds_insert_subs st e _ x hx with h' | h'
    · exact Or.inl h'
    · exact Or.inr ⟨h', hu⟩

/-- Ids a scan collects were not in its starting used set. -/
theorem foldl_fresh {σ} (hσ : StepOk σ) :
    ∀ (es : List ClassifiedEvent) (st : CollectSt) (x : String),
      x ∈ collIds (es.foldl σ st) → x ∈ collIds st ∨ x ∉ st.used := by
  intro es
  induction es with
  | nil => intro st x hx; exact Or.inl hx
  | cons e rest ih =>
    intro st x hx
    rw [List.foldl_cons] at hx
    rcases ih _ x hx with h | h
    · rcases stepOk_collIds hσ st e x h with h' | ⟨h1, h2⟩
      · exact Or.inl h'
      · exact Or.inr (h1 ▸ h2)
    · exact Or.inr (fun hc => h (stepOk_used_sub hσ st e x hc))

/-- A step keeps collected ids inside the used set. -/
theorem stepOk_ids_used {σ} (hσ : StepOk σ) (st : CollectSt) (e : ClassifiedEvent)
    (hst : ∀ x ∈ collIds st, x ∈ st.used) :
    ∀ x ∈ collIds (σ st e), x ∈ (σ st e).used := by
  intro x hx
  rcases stepOk_collIds hσ st e x hx with h | ⟨h1, _⟩
  · exact stepOk_used_sub hσ st e x (hst x h)
  · rcases hσ st e with h' | ⟨_, h' | h' | h'⟩ <;> rw [h'] at hx ⊢
    · exact hst x hx
    · rw [h1]; exact List.mem_cons_self _ _
    · rw [h1]; exact List.mem_cons_self _ _
    · rw [h1]; exact List.mem_cons_self _ _

/-- A scan keeps collected ids inside the used set. -/
theorem foldl_ids_used {σ} (hσ : StepOk σ) :
    ∀ (es : List ClassifiedEvent) (st : CollectSt),
      (∀ x ∈ collIds st, x ∈ st.used) →
      ∀ x ∈ collIds (es.foldl σ st), x ∈ (es.foldl σ st).used := by
  intro es
  induction es with
  | nil => intro st hst x hx; exact hst x hx
  | cons e rest ih =>
    intro st hst x hx
    rw [List.foldl_cons] at hx ⊢
    exact ih _ (stepOk_ids_used hσ st e hst) x hx

/-- `buildChainForInstall` unfolded through `chainScan`. -/
theorem bCFI_eq (u : String) (root : ClassifiedEvent)
    (es : List ClassifiedEvent) (us : List String) :
    buildChainForInstall u root es us =
      ({ id := u
         sessionId := root.sessionId
         rootEvent := root
         subDecisions := (chainScan root es us).subs
         searchEvents := (chainScan root es us).searches
         abandonedChoices := (chainScan root es us).abandonedCs
         finalSelection :=
           if root.abandoned then
             ((chainScan root es us).subs.find? (fun e => !e.abandoned)).getD root
           else root
         chainOrder := 0 }, (chainScan root es us).used) := rfl

/-- Indexed selection only returns list elements. -/
theorem evtsAt_subset (l : List ClassifiedEvent) (idxs : List Nat) :
    ∀ e ∈ evtsAt l idxs, e ∈ l := by
  intro e he
  rw [evtsAt, List.mem_filterMap] at he
  obtain ⟨i, _, hi⟩ := he
  exact List.getElem?_mem hi

/-- Session filtering only returns list elements. -/
theorem sessionEventsOf_subset (es : List ClassifiedEvent) (sid : String) :
    ∀ e ∈ sessionEventsOf es sid, e ∈ es := by
  intro e he
  exact (List.mem_filter.mp he).1

/-- Everything the chain scans collect comes from the event list. -/
theorem chainScan_collected_mem (root : ClassifiedEvent)
    (es : List ClassifiedEvent) (us : List String) :
    ∀ f, (f ∈ (chainScan root es us).searches ∨
          f ∈ (chainScan root es us).abandonedCs ∨
          f ∈ (chainScan root es us).subs) → f ∈ es := by
  intro f hf
  unfold chainScan at hf
  set ses := sessionEventsOf es root.sessionId with hses
  have hsub : ∀ g idxs, g ∈ evtsAt ses idxs → g ∈ es := fun g idxs hg =>
    sessionEventsOf_subset es root.sessionId g (evtsAt_subset ses idxs g hg)
  rcases hf with hf | hf | hf
  · rcases foldl_searches_from (fwdStep_ok root) _ _ f hf with hf' | hf'
    · rcases foldl_searches_from backStep_ok _ _ f hf' with hf'' | hf''
      · simp at hf''
      · exact hsub f _ hf''
    · exact hsub f _ hf'
  · rcases foldl_abandoned_from (fwdStep_ok root) _ _ f hf with hf' | hf'
    · rcases foldl_abandoned_from backStep_ok _ _ f hf' with hf'' | hf''
      · simp at hf''
      · exact hsub f _ hf''
    · exact hsub f _ hf'
  · rcases foldl_subs_from (fwdStep_ok root) _ _ f hf with hf' | hf'
    · rcases foldl_subs_from backStep_ok _ _ f hf' with hf'' | hf''
      · simp at hf''
      · exact hsub f _ hf''
    · exact hsub f _ hf'

/-- The chain scans record every collected id as used. -/
theorem chainScan_ids_used (root : ClassifiedEvent)
    (es : List ClassifiedEvent) (us : List String) :
    ∀ x ∈ collIds (chainScan root es us), x ∈ (chainScan root es us).used := by
  unfold chainScan
  apply foldl_ids_used (fwdStep_ok root)
  apply foldl_ids_used backStep_ok
  intro x hx
  simp [collIds] at hx

/-- The chain scans only collect ids that were not used on entry. -/
theorem chainScan_fresh (root : ClassifiedEvent)
    (es : List ClassifiedEvent) (us : List String) :
    ∀ x ∈ collIds (chainScan root es us), x ∉ root.id :: us := by
  intro x hx
  unfold chainScan at hx
  rcases foldl_fresh (fwdStep_ok root) _ _ x hx with h | h
  · rcases foldl_fresh backStep_ok _ _ x h with h' | h'
    · simp [collIds] at h'
    · exact h'
  · intro hc
    exact h (foldl_used_mono backStep_ok _ _ x hc)

/-- The chain scans keep the entry used set. -/
theorem chainScan_used_mono (root : ClassifiedEvent)
    (es : List ClassifiedEvent) (us : List String) :
    ∀ x ∈ root.id :: us, x ∈ (chainScan root es us).used := by
  intro x hx
  unfold chainScan
  exact foldl_used_mono (fwdStep_ok root) _ _ x
    (foldl_used_mono backStep_ok _ _ x hx)

/-- The id set of a chain, unfolded. -/
theorem chainEventIds_eq (c : DecisionChain) :
    chainEventIds c = c.rootEvent.id ::
      (c.subDecisions ++ c.searchEvents ++ c.abandonedChoices).map (·.id) := by
  unfold chainEventIds chainEvents
  rw [List.map_cons]

/-- Overwriting `chainOrder` leaves the referenced events unchanged. -/
theorem chainEvents_setOrder (c : DecisionChain) (o : Nat) :
    chainEvents { c with chainOrder := o } = chainEvents c := rfl

/-- Overwriting `chainOrder` leaves the claimed ids unchanged. -/
theorem chainEventIds_setOrder (c : DecisionChain) (o : Nat) :
    chainEventIds { c with chainOrder := o } = chainEventIds c := rfl

/-- A built chain references only the root and events of the input list. -/
theorem bCFI_chain_mem (u : String) (root : ClassifiedEvent)
    (es : List ClassifiedEvent) (us : List String) :
    ∀ e ∈ chainEvents (buildChainForInstall u root es us).1, e = root ∨ e ∈ es := by
  intro e he
  rw [bCFI_eq] at he
  unfold chainEvents at he
  rcases List.mem_cons.mp he with h | h
  · exact Or.inl h
  · simp only [List.mem_append] at h
    refine Or.inr (chainScan_collected_mem root es us e ?_)
    rcases h with (h | h) | h
    · exact Or.inr (Or.inr h)
    · exact Or.inl h
    · exact Or.inr (Or.inl h)

/-- A built chain's final selection is among its referenced events. -/
theorem bCFI_final_mem (u : String) (root : ClassifiedEvent)
    (es : List ClassifiedEvent) (us : List String) :
    (buildChainForInstall u root es us).1.finalSelection ∈
      chainEvents (buildChainForInstall u root es us).1 := by
  rw [bCFI_eq]
  unfold chainEvents
  simp only
  split_ifs with h
  · cases hf : ((chainScan root es us).subs.find? (fun e => !e.abandoned)) with
    | none => simp [hf, List.mem_cons]
    | some x =>
      simp only [hf, Option.getD_some]
      exact List.mem_cons_of_mem _
        (List.mem_append_left _ (List.mem_append_left _ (List.mem_of_find?_eq_some hf)))
  · exact List.mem_cons_self _ _

/-- A built chain's claimed ids are all in the returned used set. -/
theorem bCFI_ids_in_used (u : String) (root : ClassifiedEvent)
    (es : List ClassifiedEvent) (us : List String) :
    ∀ x ∈ chainEventIds (buildChainForInstall u root es us).1,
      x ∈ (buildChainForInstall u root es us).2 := by
  intro x hx
  rw [bCFI_eq] at hx ⊢
  rw [chainEventIds_eq] at hx
  simp only at hx ⊢
  rcases List.mem_cons.mp hx with h | h
  · exact chainScan_used_mono root es us x (by rw [h]; exact List.mem_cons_self _ _)
  · exact chainScan_ids_used root es us x h

/-- A built chain claims only its root's id and ids unused on entry. -/
theorem bCFI_ids_fresh (u : String) (root : ClassifiedEvent)
    (es : List ClassifiedEvent) (us : List String) :
    ∀ x ∈ chainEventIds (buildChainForInstall u root es us).1,
      x = root.id ∨ x ∉ us := by
  intro x hx
  rw [bCFI_eq] at hx
  rw [chainEventIds_eq] at hx
  simp only at hx
  rcases List.mem_cons.mp hx with h | h
  · exact Or.inl h
  · have := chainScan_fresh root es us x h
    exact Or.inr (fun hc => this (List.mem_cons_of_mem _ hc))

/-- Building a chain never removes used ids. -/
theorem bCFI_used_mono (u : String) (root : ClassifiedEvent)
    (es : List ClassifiedEvent) (us : List String) :
    ∀ x ∈ us, x ∈ (buildChainForInstall u root es us).2 := by
  intro x hx
  rw [bCFI_eq]
  exact chainScan_used_mono root es us x (List.mem_cons_of_mem _ hx)

/-- The chain-building loop: every chain references only input events,
its final selection is among them, its ids avoid the entry used set, and the
chains' id sets are pairwise disjoint. -/
theorem go_chains_spec (g : Nat → String) (s : Nat) (allEvents : List ClassifiedEvent) :
    ∀ (ies : List ClassifiedEvent) (used : List String) (order : Nat),
      (∀ ie ∈ ies, ie ∈ allEvents) →
      (∀ c ∈ buildChainsGo g s allEvents ies used order,
          (∀ e ∈ chainEvents c, e ∈ allEvents) ∧
          c.finalSelection ∈ chainEvents c ∧
          (∀ x ∈ chainEventIds c, x ∉ used)) ∧
      List.Pairwise (fun c₁ c₂ => ∀ a ∈ chainEventIds c₁, a ∉ chainEventIds c₂)
        (buildChainsGo g s allEvents ies used order) := by
  intro ies
  induction ies with
  | nil =>
    intro used order _
    constructor
    · intro c hc; simp [buildChainsGo] at hc
    · simp [buildChainsGo]
  | cons ie rest ih =>
    intro used order hies
    have hies_rest : ∀ e ∈ rest, e ∈ allEvents :=
      fun e he => hies e (List.mem_cons_of_mem _ he)
    unfold buildChainsGo
    by_cases h : ie.id ∈ used
    · rw [if_pos h]
      exact ih used order hies_rest
    · rw [if_neg h]
      dsimp only
      set u := g (s + order) with hu
      set cu := buildChainForInstall u ie allEvents used with hcu
      obtain ⟨Hrest, Hpw⟩ := ih cu.2 (order + 1) hies_rest
      have hco : chainEvents { cu.1 with chainOrder := order + 1 } = chainEvents cu.1 :=
        chainEvents_setOrder cu.1 (order + 1)
      have hci : chainEventIds { cu.1 with chainOrder := order + 1 } = chainEventIds cu.1 :=
        chainEventIds_setOrder cu.1 (order + 1)
      have hhead_mem : ∀ e ∈ chainEvents { cu.1 with chainOrder := order + 1 },
          e ∈ allEvents := by
        intro e he
        rw [hco] at he
        rcases bCFI_chain_mem u ie allEvents used e he with h' | h'
        · rw [h']; exact hies ie (List.mem_cons_self _ _)
        · exact h'
      have hhead_final : ({ cu.1 with chainOrder := order + 1 } :
          DecisionChain).finalSelection ∈
          chainEvents { cu.1 with chainOrder := order + 1 } := by
        rw [hco]
        exact bCFI_final_mem u ie allEvents used
      have hhead_fresh : ∀ x ∈ chainEventIds { cu.1 with chainOrder := order + 1 },
          x ∉ used := by
        intro x hx
        rw [hci] at hx
        rcases bCFI_ids_fresh u ie allEvents used x hx with h' | h'
        · rw [h']; exact h
        · exact h'
      constructor
      · intro c hc
        rcases List.mem_cons.mp hc with hc | hc
        · subst hc
          exact ⟨hhead_mem, hhead_final, hhead_fresh⟩
        · obtain ⟨m1, m2, m3⟩ := Hrest c hc
          exact ⟨m1, m2, fun x hx hxu =>
            m3 x hx (bCFI_used_mono u ie allEvents used x hxu)⟩
      · refine List.Pairwise.cons ?_ Hpw
        intro c hc a ha hac
        obtain ⟨_, _, m3⟩ := Hrest c hc
        apply m3 a hac
        rw [hci] at ha
        exact bCFI_ids_in_used u ie allEvents used a ha

/-- **C1**: with unique event ids, every event referenced by any chain
(root, sub-decisions, searches, abandoned choices, and the final selection)
is an element of the input list, and the chains' combined event-id sets are
pairwise disjoint — no event id is claimed by more than one chain. -/
theorem C1 (g : Nat → String) (s : Nat) (events : List ClassifiedEvent)
    (_hids : (events.map (·.id)).Nodup) :
    (∀ c ∈ (buildChains g s events).1,
        (∀ e ∈ chainEvents c, e ∈ events) ∧ c.finalSelection ∈ events) ∧
    List.Pairwise (fun c₁ c₂ => ∀ a ∈ chainEventIds c₁, a ∉ chainEventIds c₂)
      (buildChains g s events).1 := by
  have hsub : ∀ ie ∈ events.filter (·.isInstall), ie ∈ events :=
    fun ie hie => (List.mem_filter.mp hie).1
  obtain ⟨Hall, Hpw⟩ := go_chains_spec g s events (events.filter (·.isInstall)) [] 0 hsub
  constructor
  · intro c hc
    obtain ⟨m1, m2, _⟩ := Hall c hc
    exact ⟨m1, m1 _ m2⟩
  · exact Hpw

/-- **C1** (witness): the theorem applied to the classified Scenario B list,
whose three event ids are distinct. -/
theorem C1_witness :
    ((classifyEvents scenarioB).map (·.id)).Nodup ∧
    ((∀ c ∈ (buildChains uuidSeq 0 (classifyEvents scenarioB)).1,
        (∀ e ∈ chainEvents c, e ∈ classifyEvents scenarioB) ∧
        c.finalSelection ∈ classifyEvents scenarioB) ∧
    List.Pairwise (fun c₁ c₂ => ∀ a ∈ chainEventIds c₁, a ∉ chainEventIds c₂)
      (buildChains uuidSeq 0 (classifyEvents scenarioB)).1) := by
  refine ⟨by decide, ?_⟩
  exact C1 uuidSeq 0 (classifyEvents scenarioB) (by decide)

/-- The backward scan visits exactly the indices of `[r-10, r-1]`. -/
theorem backIdxs_mem_iff (r i : Nat) : i ∈ backIdxs r ↔ r - 10 ≤ i ∧ i < r := by
  simp only [backIdxs, List.mem_map, List.mem_range]
  constructor
  · rintro ⟨k, hk, rfl⟩
    omega
  · rintro ⟨h1, h2⟩
    exact ⟨r - 1 - i, by omega, by omega⟩

/-- The forward scan visits exactly the indices of `[r+1, min(len, r+10) - 1]`
— at most 9 following events. -/
theorem fwdIdxs_mem_iff (r len i : Nat) :
    i ∈ fwdIdxs r len ↔ r + 1 ≤ i ∧ i < min len (r + 10) := by
  simp only [fwdIdxs, List.mem_map, List.mem_range]
  constructor
  · rintro ⟨k, hk, rfl⟩
    omega
  · rintro ⟨h1, h2⟩
    exact ⟨i - (r + 1), by omega, by omega⟩

/-- The backward index list has no duplicates. -/
theorem backIdxs_nodup (r : Nat) : (backIdxs r).Nodup := by
  apply List.Nodup.map_on _ (List.nodup_range _)
  intro x hx y hy hxy
  rw [List.mem_range] at hx hy
  omega

/-- The forward index list has no duplicates. -/
theorem fwdIdxs_nodup (r len : Nat) : (fwdIdxs r len).Nodup := by
  apply List.Nodup.map_on _ (List.nodup_range _)
  intro x hx y hy hxy
  rw [List.mem_range] at hx hy
  omega

/-- A successful indexed lookup is in range. -/
theorem getElem?_lt_length {α : Type} {l : List α} {i : Nat} {a : α}
    (h : l[i]? = some a) : i < l.length := by
  by_contra hc
  rw [List.getElem?_eq_none (by omega)] at h
  exact Option.noConfusion h

/-- Selecting distinct indices from a list with distinct ids yields distinct
ids. -/
theorem evtsAt_ids_nodup (ses : List ClassifiedEvent) (idxs : List Nat)
    (hses : (ses.map (·.id)).Nodup) (hidx : idxs.Nodup) :
    ((evtsAt ses idxs).map (·.id)).Nodup := by
  induction idxs with
  | nil => exact List.nodup_nil
  | cons i rest ih =>
    unfold evtsAt
    rw [List.filterMap_cons]
    cases hsi : ses[i]? with
    | none => exact ih (List.Nodup.of_cons hidx)
    | some e =>
      rw [List.map_cons]
      refine List.Nodup.cons ?_ (ih (List.Nodup.of_cons hidx))
      intro hmem
      rw [List.mem_map] at hmem
      obtain ⟨e', he', heq⟩ := hmem
      rw [List.mem_filterMap] at he'
      obtain ⟨j, hj, hje⟩ := he'
      have hij : i ≠ j := fun hc => (List.nodup_cons.mp hidx).1 (hc ▸ hj)
      apply hij
      apply List.getElem?_inj (by
        rw [List.length_map]
        exact getElem?_lt_length hsi) hses
      rw [List.getElem?_map, List.getElem?_map, hsi, hje]
      simp [heq]

/-- Backward-scan completeness: an unused scanned event is collected into
`searchEvents` when it is a search, into `abandonedChoices` when it is an
abandoned install. -/
theorem backFold_collects (es : List ClassifiedEvent) :
    ∀ (st : CollectSt) (e : ClassifiedEvent),
      (es.map (·.id)).Nodup → e ∈ es → e.id ∉ st.used →
      (e.isSearch = true → e ∈ (es.foldl backStep st).searches) ∧
      (e.isSearch = false → (e.isInstall && e.abandoned) = true →
        e ∈ (es.foldl backStep st).abandonedCs) := by
  induction es with
  | nil => intro st e _ he _; simp at he
  | cons f rest ih =>
    intro st e hnd he hu
    rw [List.foldl_cons]
    rcases List.mem_cons.mp he with he | he
    · subst he
      constructor
      · intro hs
        have hstep : e ∈ (backStep st e).searches := by
          unfold backStep
          rw [if_neg hu, if_pos hs]
          simp
        exact foldl_searches_mono backStep_ok rest _ e hstep
      · intro hs hia
        have hstep : e ∈ (backStep st e).abandonedCs := by
          unfold backStep
          rw [if_neg hu, if_neg (by simp [hs]), if_pos hia]
          simp
        exact foldl_abandoned_mono backStep_ok rest _ e hstep
    · have hne : e.id ≠ f.id := by
        intro hc
        rw [List.map_cons] at hnd
        exact (List.nodup_cons.mp hnd).1 (hc ▸ List.mem_map_of_mem (·.id) he)
      have hu' : e.id ∉ (backStep st f).used := by
        rcases backStep_ok st f with h | ⟨_, h | h | h⟩ <;> rw [h]
        · exact hu
        all_goals
          intro hc
          rcases List.mem_cons.mp hc with hc | hc
          · exact hne hc
          · exact hu hc
      exact ih _ e (by rw [List.map_cons] at hnd; exact List.Nodup.of_cons hnd) he hu'

/-- Forward-scan completeness: an unused scanned event is collected into
`searchEvents` when it is a search, into `subDecisions` when it is an install
with an abandoned root or within 30 s of it. -/
theorem fwdFold_collects (root : ClassifiedEvent) (es : List ClassifiedEvent) :
    ∀ (st : CollectSt) (e : ClassifiedEvent),
      (es.map (·.id)).Nodup → e ∈ es → e.id ∉ st.used →
      (e.isSearch = true → e ∈ (es.foldl (fwdStep root) st).searches) ∧
      (e.isSearch = false →
        (e.isInstall && (root.abandoned ||
          decide (e.timestamp - root.timestamp < 30000))) = true →
        e ∈ (es.foldl (fwdStep root) st).subs) := by
  induction es with
  | nil => intro st e _ he _; simp at he
  | cons f rest ih =>
    intro st e hnd he hu
    rw [List.foldl_cons]
    rcases List.mem_cons.mp he with he | he
    · subst he
      constructor
      · intro hs
        have hstep : e ∈ (fwdStep root st e).searches := by
          unfold fwdStep
          rw [if_neg hu, if_pos hs]
          simp
        exact foldl_searches_mono (fwdStep_ok root) rest _ e hstep
      · intro hs hia
        have hstep : e ∈ (fwdStep root st e).subs := by
          unfold fwdStep
          rw [if_neg hu, if_neg (by simp [hs]), if_pos hia]
          simp
        exact foldl_subs_mono (fwdStep_ok root) rest _ e hstep
    · have hne : e.id ≠ f.id := by
        intro hc
        rw [List.map_cons] at hnd
        exact (List.nodup_cons.mp hnd).1 (hc ▸ List.mem_map_of_mem (·.id) he)
      have hu' : e.id ∉ (fwdStep root st f).used := by
        rcases fwdStep_ok root st f with h | ⟨_, h | h | h⟩ <;> rw [h]
        · exact hu
        all_goals
          intro hc
          rcases List.mem_cons.mp hc with hc | hc
          · exact hne hc
          · exact hu hc
      exact ih _ e (by rw [List.map_cons] at hnd; exact List.Nodup.of_cons hnd) he hu'

/-- The forward scan never adds abandoned choices. -/
theorem fwdFold_abandoned_eq (root : ClassifiedEvent) :
    ∀ (es : List ClassifiedEvent) (st : CollectSt),
      (es.foldl (fwdStep root) st).abandonedCs = st.abandonedCs := by
  intro es
  induction es with
  | nil => intro st; rfl
  | cons f rest ih =>
    intro st
    rw [List.foldl_cons, ih]
    unfold fwdStep
    split_ifs <;> rfl

/-- The backward scan never adds sub-decisions. -/
theorem backFold_subs_eq :
    ∀ (es : List ClassifiedEvent) (st : CollectSt),
      (es.foldl backStep st).subs = st.subs := by
  intro es
  induction es with
  | nil => intro st; rfl
  | cons f rest ih =>
    intro st
    rw [List.foldl_cons, ih]
    unfold backStep
    split_ifs <;> rfl

/-- **C6** (amended): building the chain for a root install at session index
`r` examines the up-to-10 preceding events (indices `r-10 … r-1`) and the
up-to-**9** following events (indices `r+1 … min(len, r+10)-1`; the source
loop's strict bound `i < rootIndex + 10` stops one short of the claimed 10).
Completeness: every not-yet-used event of the backward window enters
`searchEvents` (searches) or `abandonedChoices` (abandoned installs), and every
not-yet-used event of the forward window enters `searchEvents` (searches) or
`subDecisions` (installs with an abandoned root or within 30 s of it).
Soundness: everything collected comes from those windows — searches from
either window, abandoned choices only from the backward window, sub-decisions
only from the forward window. -/
theorem C6_amended (u : String) (root : ClassifiedEvent)
    (allEvents : List ClassifiedEvent) (used₀ : List String) (r : Nat)
    (hnd : ((sessionEventsOf allEvents root.sessionId).map (·.id)).Nodup)
    (hfind : (sessionEventsOf allEvents root.sessionId).findIdx
        (fun e => e.id = root.id) = r)
    (hroot : (sessionEventsOf allEvents root.sessionId)[r]? = some root) :
    (∀ i e, (sessionEventsOf allEvents root.sessionId)[i]? = some e →
        r - 10 ≤ i → i < r → e.id ∉ used₀ →
        (e.isSearch = true →
          e ∈ (buildChainForInstall u root allEvents used₀).1.searchEvents) ∧
        (e.isSearch = false → (e.isInstall && e.abandoned) = true →
          e ∈ (buildChainForInstall u root allEvents used₀).1.abandonedChoices)) ∧
    (∀ i e, (sessionEventsOf allEvents root.sessionId)[i]? = some e →
        r + 1 ≤ i →
        i + 1 ≤ min (sessionEventsOf allEvents root.sessionId).length (r + 10) →
        e.id ∉ used₀ →
        (e.isSearch = true →
          e ∈ (buildChainForInstall u root allEvents used₀).1.searchEvents) ∧
        (e.isSearch = false →
          (e.isInstall && (root.abandoned ||
            decide (e.timestamp - root.timestamp < 30000))) = true →
          e ∈ (buildChainForInstall u root allEvents used₀).1.subDecisions)) ∧
    (∀ f ∈ (buildChainForInstall u root allEvents used₀).1.searchEvents,
        ∃ i, (sessionEventsOf allEvents root.sessionId)[i]? = some f ∧
          (r - 10 ≤ i ∧ i < r ∨ r + 1 ≤ i ∧
            i + 1 ≤ min (sessionEventsOf allEvents root.sessionId).length (r + 10))) ∧
    (∀ f ∈ (buildChainForInstall u root allEvents used₀).1.abandonedChoices,
        ∃ i, (sessionEventsOf allEvents root.sessionId)[i]? = some f ∧
          r - 10 ≤ i ∧ i < r) ∧
    (∀ f ∈ (buildChainForInstall u root allEvents used₀).1.subDecisions,
        ∃ i, (sessionEventsOf allEvents root.sessionId)[i]? = some f ∧
          r + 1 ≤ i ∧
          i + 1 ≤ min (sessionEventsOf allEvents root.sessionId).length (r + 10)) := by
  set ses := sessionEventsOf allEvents root.sessionId with hses
  set backL := evtsAt ses (backIdxs r) with hbackL
  set fwdL := evtsAt ses (fwdIdxs r ses.length) with hfwdL
  set st0 : CollectSt := { used := root.id :: used₀ } with hst0
  set st1 := backL.foldl backStep st0 with hst1
  set st2 := fwdL.foldl (fwdStep root) st1 with hst2
  have hscan : chainScan root allEvents used₀ = st2 := by
    unfold chainScan
    dsimp only
    rw [← hses, hfind, ← hbackL, ← hst0, ← hst1, ← hfwdL]
  have hsearch_proj : (buildChainForInstall u root allEvents used₀).1.searchEvents =
      st2.searches := by rw [bCFI_eq]; dsimp only; rw [hscan]
  have hab_proj : (buildChainForInstall u root allEvents used₀).1.abandonedChoices =
      st2.abandonedCs := by rw [bCFI_eq]; dsimp only; rw [hscan]
  have hsub_proj : (buildChainForInstall u root allEvents used₀).1.subDecisions =
      st2.subs := by rw [bCFI_eq]; dsimp only; rw [hscan]
  have hne_root : ∀ i e, ses[i]? = some e → i ≠ r → e.id ≠ root.id := by
    intro i e h hir hc
    apply hir
    apply List.getElem?_inj (by
      rw [List.length_map]
      exact getElem?_lt_length h) hnd
    rw [List.getElem?_map, List.getElem?_map, h, hroot]
    simp [hc]
  have hndB : ((backL.map (·.id))).Nodup :=
    evtsAt_ids_nodup ses (backIdxs r) hnd (backIdxs_nodup r)
  have hndF : ((fwdL.map (·.id))).Nodup :=
    evtsAt_ids_nodup ses (fwdIdxs r ses.length) hnd (fwdIdxs_nodup r ses.length)
  have hbackL_idx : ∀ f ∈ backL, ∃ i, ses[i]? = some f ∧ r - 10 ≤ i ∧ i < r := by
    intro f hf
    rw [hbackL] at hf
    unfold evtsAt at hf
    rw [List.mem_filterMap] at hf
    obtain ⟨i, hi, hif⟩ := hf
    exact ⟨i, hif, (backIdxs_mem_iff r i).mp hi⟩
  have hfwdL_idx : ∀ f ∈ fwdL, ∃ i, ses[i]? = some f ∧ r + 1 ≤ i ∧
      i + 1 ≤ min ses.length (r + 10) := by
    intro f hf
    rw [hfwdL] at hf
    unfold evtsAt at hf
    rw [List.mem_filterMap] at hf
    obtain ⟨i, hi, hif⟩ := hf
    have := (fwdIdxs_mem_iff r ses.length i).mp hi
    exact ⟨i, hif, this.1, by omega⟩
  refine ⟨?_, ?_, ?_, ?_, ?_⟩
  · -- backward completeness
    intro i e h hge hlt hu
    have hmem : e ∈ backL := by
      rw [hbackL]
      unfold evtsAt
      rw [List.mem_filterMap]
      exact ⟨i, (backIdxs_mem_iff r i).mpr ⟨hge, hlt⟩, h⟩
    have hu0 : e.id ∉ st0.used := by
      rw [hst0]
      intro hc
      rcases List.mem_cons.mp hc with hc | hc
      · exact hne_root i e h (by omega) hc
      · exact hu hc
    obtain ⟨hc1, hc2⟩ := backFold_collects backL st0 e hndB hmem hu0
    constructor
    · intro hs
      rw [hsearch_proj, hst2]
      exact foldl_searches_mono (fwdStep_ok root) fwdL st1 e (hst1 ▸ hc1 hs)
    · intro hs hia
      rw [hab_proj, hst2]
      exact foldl_abandoned_mono (fwdStep_ok root) fwdL st1 e (hst1 ▸ hc2 hs hia)
  · -- forward completeness
    intro i e h hge hlt hu
    have hmem : e ∈ fwdL := by
      rw [hfwdL]
      unfold evtsAt
      rw [List.mem_filterMap]
      exact ⟨i, (fwdIdxs_mem_iff r ses.length i).mpr ⟨hge, by omega⟩, h⟩
    have hu1 : e.id ∉ st1.used := by
      intro hc
      rw [hst1] at hc
      rcases foldl_used_from backStep_ok backL st0 e.id hc with hc' | hc'
      · rw [hst0] at hc'
        rcases List.mem_cons.mp hc' with hc' | hc'
        · exact hne_root i e h (by omega) hc'
        · exact hu hc'
      · rw [List.mem_map] at hc'
        obtain ⟨e', he', heq⟩ := hc'
        obtain ⟨j, hj, hjlt⟩ := hbackL_idx e' he'
        have : j = i := by
          apply List.getElem?_inj (by
            rw [List.length_map]
            exact getElem?_lt_length hj) hnd
          rw [List.getElem?_map, List.getElem?_map, hj, h]
          simp [heq]
        omega
    obtain ⟨hc1, hc2⟩ := fwdFold_collects root fwdL st1 e hndF hmem hu1
    constructor
    · intro hs
      rw [hsearch_proj, hst2]
      exact hc1 hs
    · intro hs hia
      rw [hsub_proj, hst2]
      exact hc2 hs hia
  · -- searches soundness
    intro f hf
    rw [hsearch_proj, hst2] at hf
    rcases foldl_searches_from (fwdStep_ok root) fwdL st1 f hf with hf' | hf'
    · rw [hst1] at hf'
      rcases foldl_searches_from backStep_ok backL st0 f hf' with hf'' | hf''
      · rw [hst0] at hf''; simp at hf''
      · obtain ⟨i, hi, h1, h2⟩ := hbackL_idx f hf''
        exact ⟨i, hi, Or.inl ⟨h1, h2⟩⟩
    · obtain ⟨i, hi, h1, h2⟩ := hfwdL_idx f hf'
      exact ⟨i, hi, Or.inr ⟨h1, h2⟩⟩
  · -- abandoned soundness
    intro f hf
    rw [hab_proj, hst2, fwdFold_abandoned_eq, hst1] at hf
    rcases foldl_abandoned_from backStep_ok backL st0 f hf with hf' | hf'
    · rw [hst0] at hf'; simp at hf'
    · exact hbackL_idx f hf'
  · -- sub-decisions soundness
    intro f hf
    rw [hsub_proj, hst2] at hf
    rcases foldl_subs_from (fwdStep_ok root) fwdL st1 f hf with hf' | hf'
    · rw [hst1, backFold_subs_eq] at hf'
      rw [hst0] at hf'; simp at hf'
    · exact hfwdL_idx f hf'

/-- **C6** (witness): the backward clause applied to a two-event session with
the root at index 1 and a search at index 0. -/
theorem C6_witness :
    (((sessionEventsOf [searchCE "w1" 0, installCE "w2" 1000]
        (installCE "w2" 1000).sessionId).map (·.id)).Nodup) ∧
    ((sessionEventsOf [searchCE "w1" 0, installCE "w2" 1000]
        (installCE "w2" 1000).sessionId).findIdx
      (fun e => e.id = (installCE "w2" 1000).id) = 1) ∧
    ((sessionEventsOf [searchCE "w1" 0, installCE "w2" 1000]
        (installCE "w2" 1000).sessionId)[1]? = some (installCE "w2" 1000)) ∧
    (∀ i e, (sessionEventsOf [searchCE "w1" 0, installCE "w2" 1000]
        (installCE "w2" 1000).sessionId)[i]? = some e →
      1 - 10 ≤ i → i < 1 → e.id ∉ ([] : List String) →
      (e.isSearch = true →
        e ∈ (buildChainForInstall "u" (installCE "w2" 1000)
          [searchCE "w1" 0, installCE "w2" 1000] []).1.searchEvents) ∧
      (e.isSearch = false → (e.isInstall && e.abandoned) = true →
        e ∈ (buildChainForInstall "u" (installCE "w2" 1000)
          [searchCE "w1" 0, installCE "w2" 1000] []).1.abandonedChoices)) := by
  refine ⟨by decide, by decide, by decide, ?_⟩
  exact (C6_amended "u" (installCE "w2" 1000) [searchCE "w1" 0, installCE "w2" 1000]
    [] 1 (by decide) (by decide) (by decide)).1
